import Mathlib

/-!
# Verification of the image-forensics analysis pipeline

Shallow embedding of the analysis modules and the confidence-weighted
aggregation engine of the `isThisImageAI` code base, together with proofs
of the specified properties.

Modelling conventions:
* JavaScript double arithmetic is modelled over `ℚ` (and over `ℝ` where the
  source calls `Math.sqrt`, `Math.log`, `Math.log2` or `Math.atan2`).
* A division whose denominator can be zero on a reachable input is modelled
  with `nanDiv`, returning `none` for the JavaScript `NaN` (`0/0`); every
  comparison against a `NaN` value is false, which `oLT`/`oGT` reproduce.
* A decoded image is a width, a height and a flat RGBA sample function
  (index `(y*width+x)*4 + channel`), mirroring `ImageData.data`.
* External collaborators (canvas decode/resize, the JPEG re-encode used by
  the ELA module, the EXIF tag extractor, the 1-D transform of `fft.js`)
  are inputs or function parameters of the embedded pipeline.
-/

namespace ImgSpec

/-- Clamp to the unit interval: `Math.max(0, Math.min(1, score))`. -/
def clamp01 {K : Type*} [LinearOrder K] [Zero K] [One K] (x : K) : K :=
  max 0 (min 1 x)

theorem clamp01_nonneg {K : Type*} [LinearOrder K] [Zero K] [One K] (x : K) :
    0 ≤ clamp01 x :=
  le_max_left 0 _

theorem clamp01_le_one {K : Type*} [LinearOrder K] [Zero K] [One K]
    (h01 : (0 : K) ≤ 1) (x : K) : clamp01 x ≤ 1 :=
  max_le h01 (min_le_left 1 x)

theorem le_clamp01 {K : Type*} [LinearOrder K] [Zero K] [One K]
    {v x : K} (hv1 : v ≤ 1) (hvx : v ≤ x) : v ≤ clamp01 x :=
  le_trans (le_min hv1 hvx) (le_max_right 0 _)

/-- JavaScript division where a zero denominator produces `NaN`
    (modelled as `none`; every reachable zero-denominator division in the
    source has a zero numerator, hence is `0/0 = NaN`). -/
def nanDiv {K : Type*} [DivisionRing K] [DecidableEq K] (a b : K) : Option K :=
  if b = 0 then none else some (a / b)

/-- `x < c` where `x` may be `NaN`: false for `NaN`. -/
def oLT {K : Type*} [LT K] : Option K → K → Prop
  | none, _ => False
  | some v, c => v < c

/-- `x > c` where `x` may be `NaN`: false for `NaN`. -/
def oGT {K : Type*} [LT K] : Option K → K → Prop
  | none, _ => False
  | some v, c => c < v

instance {K : Type*} [LT K] [∀ a b : K, Decidable (a < b)] (x : Option K) (c : K) :
    Decidable (oLT x c) := by
  cases x <;> simp only [oLT] <;> infer_instance

instance {K : Type*} [LT K] [∀ a b : K, Decidable (a < b)] (x : Option K) (c : K) :
    Decidable (oGT x c) := by
  cases x <;> simp only [oGT] <;> infer_instance

/-- NaN-propagating addition. -/
def oAdd {K : Type*} [Add K] : Option K → Option K → Option K
  | some a, some b => some (a + b)
  | _, _ => none

/-- NaN-propagating subtraction. -/
def oSub {K : Type*} [Sub K] : Option K → Option K → Option K
  | some a, some b => some (a - b)
  | _, _ => none

/-- NaN-propagating multiplication. -/
def oMul {K : Type*} [Mul K] : Option K → Option K → Option K
  | some a, some b => some (a * b)
  | _, _ => none

/-! ## The aggregator (`analyzeImage` in `src/lib/analysis.ts`)

The aggregator consumes the seven module scores, indexed in source order:
0 metadata, 1 ela, 2 fft, 3 color, 4 edge, 5 noise, 6 texture. -/

/-- The three-level verdict. -/
inductive Verdict where
  | likelyReal
  | suspicious
  | likelyAI
deriving DecidableEq

variable {K : Type*} [LinearOrderedField K]

/-- Base weight table of the aggregator, in source order:
    metadata 0.10, ela 0.20, fft 0.15, color 0.15, edge 0.15, noise 0.15,
    texture 0.10. -/
def baseWeight : Fin 7 → K
  | 0 => 1/10
  | 1 => 1/5
  | 2 => 3/20
  | 3 => 3/20
  | 4 => 3/20
  | 5 => 3/20
  | 6 => 1/10

/-- Per-module confidence: `Math.abs(score - 0.5) * 2`. -/
def moduleConfidence (s : Fin 7 → K) (i : Fin 7) : K :=
  |s i - 1/2| * 2

/-- Total confidence over the seven modules. -/
def totalConfidence (s : Fin 7 → K) : K :=
  ∑ i, moduleConfidence s i

/-- Confidence-boosted weight before renormalization:
    `baseWeight * (1 + confidence * 0.5)`. -/
def boostedWeight (s : Fin 7 → K) (i : Fin 7) : K :=
  baseWeight i * (1 + moduleConfidence s i * (1/2))

/-- Sum of the boosted weights (`totalWeight` in the source). -/
def totalWeight (s : Fin 7 → K) : K :=
  ∑ i, boostedWeight s i

/-- Adjusted weights actually used: boosted weights renormalized to sum 1
    when `totalConfidence > 0`, otherwise the base weights unchanged. -/
def adjustedWeight (s : Fin 7 → K) (i : Fin 7) : K :=
  if 0 < totalConfidence s then boostedWeight s i / totalWeight s
  else baseWeight i

/-- The confidence-weighted overall score. -/
def overallScore (s : Fin 7 → K) : K :=
  ∑ i, s i * adjustedWeight s i

/-- Fraction of modules whose score is within 0.3 of the overall score. -/
def agreement (s : Fin 7 → K) : K :=
  (Finset.univ.filter fun i => |s i - overallScore s| < 3/10).card / 7

/-- Mean of the per-module confidences. -/
def avgConfidence (s : Fin 7 → K) : K :=
  totalConfidence s / 7

/-- Overall confidence: `agreement * 0.6 + avgConfidence * 0.4`. -/
def confidence (s : Fin 7 → K) : K :=
  agreement s * (3/5) + avgConfidence s * (2/5)

/-- Verdict by thresholds alone, before the low-confidence downgrade. -/
def preVerdict (over : K) : Verdict :=
  if 13/20 < over then Verdict.likelyAI
  else if 2/5 < over then Verdict.suspicious
  else Verdict.likelyReal

/-- Verdict from an overall score and a confidence value, including the
    low-confidence downgrade of `Likely AI` to `Suspicious`. -/
def verdictOf (over conf : K) : Verdict :=
  if conf < 3/10 ∧ preVerdict over = Verdict.likelyAI then Verdict.suspicious
  else preVerdict over

/-- Verdict computed by the aggregator for seven module scores. -/
def verdict (s : Fin 7 → K) : Verdict :=
  verdictOf (overallScore s) (confidence s)

/-! ## Decoded images -/

/-- A decoded image: width, height and the flat RGBA sample array of
    `ImageData.data`, sample `c` of pixel `(x, y)` at index
    `(y*width+x)*4 + c`.  Samples are modelled as rationals; a real decoded
    canvas yields integers in `[0, 255]`. -/
structure Img where
  width : ℕ
  height : ℕ
  data : ℕ → ℚ

/-- Grayscale value of pixel `p` (flat pixel index):
    `0.299*r + 0.587*g + 0.114*b`. -/
def gray (img : Img) (p : ℕ) : ℚ :=
  299/1000 * img.data (4*p) + 587/1000 * img.data (4*p + 1)
    + 114/1000 * img.data (4*p + 2)

/-- Number of iterations of `for (i = 0; i < bound; i += step)` over `ℕ`
    (`bound` is already truncated at zero, matching a negative JS bound). -/
def steps (bound step : ℕ) : ℕ :=
  (bound + step - 1) / step

/-! ## Metadata Inspector (`src/lib/modules/metadata.ts`)

The EXIF extraction of `exif-js` is external; the module consumes the
extracted tag map, modelled by the fields below, plus the dimensions the
source reads off the file object. -/

/-- Substring test on character lists (JavaScript `String.includes`):
    `subAt hay needle` is true when `needle` occurs at the head of `hay`. -/
def subAt : List Char → List Char → Bool
  | _, [] => true
  | [], _ :: _ => false
  | a :: as, b :: bs => a = b && subAt as bs

/-- `hasSub hay needle` is true when `needle` occurs anywhere in `hay`. -/
def hasSub : List Char → List Char → Bool
  | [], needle => needle.isEmpty
  | a :: as, needle => subAt (a :: as) needle || hasSub as needle

/-- The extracted EXIF tag map: the `Software` tag, the `UserComment` tag
    (both as character lists when present) and the number of other tags. -/
structure TagMap where
  software : Option (List Char)
  userComment : Option (List Char)
  otherTagCount : ℕ

/-- `Object.keys(allTags).length > 0`. -/
def TagMap.hasTags (t : TagMap) : Prop :=
  t.software.isSome = true ∨ t.userComment.isSome = true ∨ 0 < t.otherTagCount

instance (t : TagMap) : Decidable t.hasTags := by
  unfold TagMap.hasTags; infer_instance

/-- Known editor/generator substrings checked against the `Software` tag. -/
def suspiciousSoftware : List (List Char) :=
  ["Adobe Photoshop".toList, "GIMP".toList,
   "Stable Diffusion".toList, "Midjourney".toList]

/-- Generation-parameter markers checked against the `UserComment` tag. -/
def generationMarkers : List (List Char) :=
  ["steps:".toList, "seed:".toList, "cfg:".toList]

/-- Score contribution of the `Software` tag (inside the has-tags branch). -/
def softwareTerm (t : TagMap) : ℚ :=
  match t.software with
  | some sw => if suspiciousSoftware.any (fun s => hasSub sw s) then 2/5 else 0
  | none => 0

/-- Score contribution of the `UserComment` tag (inside the has-tags
    branch). -/
def commentTerm (t : TagMap) : ℚ :=
  match t.userComment with
  | some c => if generationMarkers.any (fun m => hasSub c m) then 4/5 else 0
  | none => 0

/-- Common AI base resolutions. -/
def aiResolutions : List (ℕ × ℕ) :=
  [(512, 512), (1024, 1024), (512, 768), (768, 512), (1024, 1792), (1792, 1024)]

/-- Exact match or exact double of a common generator resolution. -/
def isSuspiciousRes (w h : ℕ) : Prop :=
  ∃ p ∈ aiResolutions, (w = p.1 ∧ h = p.2) ∨ (w = 2 * p.1 ∧ h = 2 * p.2)

instance (w h : ℕ) : Decidable (isSuspiciousRes w h) := by
  unfold isSuspiciousRes; infer_instance

/-- Metadata score before the final clamp, built additively as in the
    source: tag-derived terms, then the resolution and squareness checks. -/
def metadataRawScore (t : TagMap) (w h : ℕ) : ℚ :=
  (if t.hasTags then softwareTerm t + commentTerm t else 3/10)
    + (if isSuspiciousRes w h then 1/5 else 0)
    + (if w = h ∧ 256 < w then 1/10 else 0)

/-- Final metadata score: `Math.min(score, 1)`. -/
def analyzeMetadataScore (t : TagMap) (w h : ℕ) : ℚ :=
  min (metadataRawScore t w h) 1

/-! ## Compression-Artifact Module, ELA (`src/lib/modules/ela.ts`)

The JPEG re-encode/decode is an external codec; the module consumes the
original image and the re-encoded sample array `re`. -/

/-- Storing an amplified difference into the `Uint8ClampedArray` of the
    visualization image clamps to `[0, 255]` (samples are integral in a
    real run, so no rounding occurs). -/
def elaStore (v : ℚ) : ℚ :=
  min 255 (max 0 v)

/-- Per-pixel average amplified difference, read back from the stored
    visualization data as in the source (`scale = 20`). -/
def elaVal (img : Img) (re : ℕ → ℚ) (p : ℕ) : ℚ :=
  (elaStore (20 * |img.data (4*p) - re (4*p)|)
    + elaStore (20 * |img.data (4*p + 1) - re (4*p + 1)|)
    + elaStore (20 * |img.data (4*p + 2) - re (4*p + 2)|)) / 3

/-- `numPixels` of the difference image. -/
def numPixels (img : Img) : ℕ :=
  img.width * img.height

/-- Mean of the per-pixel amplified differences. -/
def elaMean (img : Img) (re : ℕ → ℚ) : ℚ :=
  (∑ p ∈ Finset.range (numPixels img), elaVal img re p) / numPixels img

/-- Variance of the per-pixel amplified differences
    (`sumSq/num - mean^2`). -/
def elaVariance (img : Img) (re : ℕ → ℚ) : ℚ :=
  (∑ p ∈ Finset.range (numPixels img), elaVal img re p ^ 2) / numPixels img
    - elaMean img re ^ 2

/-- Pixel count of quadrant `(rx, ry)` of the 2×2 regional grid: the number
    of loop iterations of the bounded quadrant scan. -/
def elaQuadPixels (img : Img) (rx ry : ℕ) : ℕ :=
  (min ((ry + 1) * (img.height / 2)) img.height - ry * (img.height / 2))
    * (min ((rx + 1) * (img.width / 2)) img.width - rx * (img.width / 2))

/-- Sum of amplified differences over quadrant `(rx, ry)`. -/
def elaQuadDiff (img : Img) (re : ℕ → ℚ) (rx ry : ℕ) : ℚ :=
  ∑ y ∈ Finset.Ico (ry * (img.height / 2))
      (min ((ry + 1) * (img.height / 2)) img.height),
    ∑ x ∈ Finset.Ico (rx * (img.width / 2))
        (min ((rx + 1) * (img.width / 2)) img.width),
      elaVal img re (y * img.width + x)

/-- Mean amplified difference of a quadrant; `NaN` when the quadrant scan
    visits no pixel (width or height below 2). -/
def elaQuadMean (img : Img) (re : ℕ → ℚ) (rx ry : ℕ) : Option ℚ :=
  nanDiv (elaQuadDiff img re rx ry) (elaQuadPixels img rx ry)

/-- Mean of the four quadrant means. -/
def elaRegionMean (img : Img) (re : ℕ → ℚ) : Option ℚ :=
  Option.map (fun s => s / 4)
    (oAdd (oAdd (elaQuadMean img re 0 0) (elaQuadMean img re 1 0))
          (oAdd (elaQuadMean img re 0 1) (elaQuadMean img re 1 1)))

/-- Squared deviation of a quadrant mean from the regional mean. -/
def elaQuadSqDev (img : Img) (re : ℕ → ℚ) (rx ry : ℕ) : Option ℚ :=
  oMul (oSub (elaQuadMean img re rx ry) (elaRegionMean img re))
       (oSub (elaQuadMean img re rx ry) (elaRegionMean img re))

/-- Variance across the four quadrant means. -/
def elaRegionVariance (img : Img) (re : ℕ → ℚ) : Option ℚ :=
  Option.map (fun s => s / 4)
    (oAdd (oAdd (elaQuadSqDev img re 0 0) (elaQuadSqDev img re 1 0))
          (oAdd (elaQuadSqDev img re 0 1) (elaQuadSqDev img re 1 1)))

/-- `regionVariance < 50 → +0.3`. -/
def elaRegionTerm (img : Img) (re : ℕ → ℚ) : ℚ :=
  if oLT (elaRegionVariance img re) 50 then 3/10 else 0

/-- `mean < 10 → +0.9; else mean < 20 → +0.6; else mean < 35 → +0.3`. -/
def elaMeanTerm (img : Img) (re : ℕ → ℚ) : ℚ :=
  if elaMean img re < 10 then 9/10
  else if elaMean img re < 20 then 3/5
  else if elaMean img re < 35 then 3/10
  else 0

/-- `variance < 100 → +0.6; else < 300 → +0.4; else > 1200 → -0.3`. -/
def elaVarTerm (img : Img) (re : ℕ → ℚ) : ℚ :=
  if elaVariance img re < 100 then 3/5
  else if elaVariance img re < 300 then 2/5
  else if 1200 < elaVariance img re then -(3/10)
  else 0

/-- Coefficient of variation `sqrt(variance)/mean`, 0 when the mean is not
    positive (source guard `mean > 0`). -/
noncomputable def elaCV (img : Img) (re : ℕ → ℚ) : ℝ :=
  if 0 < elaMean img re then
    Real.sqrt ((elaVariance img re : ℝ)) / (elaMean img re : ℝ)
  else 0

/-- `CV < 0.3 → +0.4; CV in (0.5, 1.5) → -0.2`. -/
noncomputable def elaCVTerm (img : Img) (re : ℕ → ℚ) : ℝ :=
  if elaCV img re < 3/10 then 2/5
  else if 1/2 < elaCV img re ∧ elaCV img re < 3/2 then -(1/5)
  else 0

/-- Final ELA score. -/
noncomputable def analyzeELAScore (img : Img) (re : ℕ → ℚ) : ℝ :=
  clamp01 (((elaRegionTerm img re + elaMeanTerm img re + elaVarTerm img re : ℚ) : ℝ)
    + elaCVTerm img re)

/-- ELA visualization sample: the stored amplified absolute difference
    (alpha forced to 255). -/
def elaViz (img : Img) (re : ℕ → ℚ) (i : ℕ) : ℚ :=
  if i % 4 = 3 then 255 else elaStore (20 * |img.data i - re i|)

/-! ## Edge Module (`src/lib/modules/edge_detection.ts`) -/

/-- JavaScript `Math.atan2` over the reals. -/
noncomputable def atan2 (y x : ℝ) : ℝ :=
  if 0 < x then Real.arctan (y / x)
  else if x < 0 then
    (if 0 ≤ y then Real.arctan (y / x) + Real.pi
     else Real.arctan (y / x) - Real.pi)
  else if 0 < y then Real.pi / 2
  else if y < 0 then -(Real.pi / 2)
  else 0

/-- The horizontal Sobel kernel. -/
def sobelXK : ℕ → ℕ → ℚ
  | 0, 0 => -1 | 0, 1 => 0 | 0, 2 => 1
  | 1, 0 => -2 | 1, 1 => 0 | 1, 2 => 2
  | 2, 0 => -1 | 2, 1 => 0 | 2, 2 => 1
  | _, _ => 0

/-- The vertical Sobel kernel. -/
def sobelYK : ℕ → ℕ → ℚ
  | 0, 0 => -1 | 0, 1 => -2 | 0, 2 => -1
  | 1, 0 => 0 | 1, 1 => 0 | 1, 2 => 0
  | 2, 0 => 1 | 2, 1 => 2 | 2, 2 => 1
  | _, _ => 0

/-- Horizontal Sobel response at pixel `(x, y)` (intended for interior
    pixels, where the neighbour coordinates do not underflow). -/
def gxAt (img : Img) (x y : ℕ) : ℚ :=
  ∑ ky ∈ Finset.range 3, ∑ kx ∈ Finset.range 3,
    gray img ((y + ky - 1) * img.width + (x + kx - 1)) * sobelXK ky kx

/-- Vertical Sobel response at pixel `(x, y)`. -/
def gyAt (img : Img) (x y : ℕ) : ℚ :=
  ∑ ky ∈ Finset.range 3, ∑ kx ∈ Finset.range 3,
    gray img ((y + ky - 1) * img.width + (x + kx - 1)) * sobelYK ky kx

/-- Interior pixels, the range of the Sobel loops. -/
def isInterior (img : Img) (x y : ℕ) : Prop :=
  1 ≤ x ∧ x < img.width - 1 ∧ 1 ≤ y ∧ y < img.height - 1

instance (img : Img) (x y : ℕ) : Decidable (isInterior img x y) := by
  unfold isInterior; infer_instance

/-- Gradient magnitude at an interior pixel. -/
noncomputable def edgeMag (img : Img) (x y : ℕ) : ℝ :=
  Real.sqrt ((gxAt img x y : ℝ) ^ 2 + (gyAt img x y : ℝ) ^ 2)

/-- The `edges` array: magnitude at interior pixels, 0 elsewhere. -/
noncomputable def edgesC (img : Img) (x y : ℕ) : ℝ :=
  if isInterior img x y then edgeMag img x y else 0

/-- The `edgeAngles` array: orientation at interior pixels, 0 elsewhere. -/
noncomputable def edgeAngleC (img : Img) (x y : ℕ) : ℝ :=
  if isInterior img x y then atan2 (gyAt img x y : ℝ) (gxAt img x y : ℝ) else 0

/-- All pixel coordinates of an image. -/
def pixelGrid (img : Img) : Finset (ℕ × ℕ) :=
  Finset.range img.width ×ˢ Finset.range img.height

/-- Interior pixel coordinates. -/
def interiorGrid (img : Img) : Finset (ℕ × ℕ) :=
  Finset.Ico 1 (img.width - 1) ×ˢ Finset.Ico 1 (img.height - 1)

/-- Sum of all gradient magnitudes. -/
noncomputable def totalEdgeStrength (img : Img) : ℝ :=
  ∑ p ∈ pixelGrid img, edgesC img p.1 p.2

/-- Pixels with magnitude above the strong threshold 150. -/
noncomputable def strongEdges (img : Img) : ℕ :=
  ((pixelGrid img).filter fun p => 150 < edgesC img p.1 p.2).card

/-- Pixels with magnitude in (50, 150]. -/
noncomputable def weakEdges (img : Img) : ℕ :=
  ((pixelGrid img).filter fun p =>
    ¬ 150 < edgesC img p.1 p.2 ∧ 50 < edgesC img p.1 p.2).card

/-- Mean gradient magnitude (diagnostic `avgEdgeStrength`). -/
noncomputable def avgEdgeStrength (img : Img) : ℝ :=
  totalEdgeStrength img / (numPixels img : ℝ)

/-- Pixels above either threshold. -/
noncomputable def edgePixels (img : Img) : ℕ :=
  strongEdges img + weakEdges img

/-- Diagnostic `edgeRatio`. -/
noncomputable def edgeRatio (img : Img) : ℚ :=
  (edgePixels img : ℚ) / numPixels img

/-- `strongEdges > 0.15 * total pixels → +0.4`. -/
noncomputable def edgeStrongTerm (img : Img) : ℝ :=
  if (numPixels img : ℝ) * (3/20) < (strongEdges img : ℝ) then 2/5 else 0

/-- Variance of the gradient magnitudes. -/
noncomputable def edgeVariance (img : Img) : ℝ :=
  (∑ p ∈ pixelGrid img, (edgesC img p.1 p.2 - avgEdgeStrength img) ^ 2)
    / (numPixels img : ℝ)

/-- `edgeVariance < 1000 → +0.3`. -/
noncomputable def edgeVarTerm (img : Img) : ℝ :=
  if edgeVariance img < 1000 then 3/10 else 0

/-- The condition under which the coherence scan counts neighbour
    `(nx, ny)` of pixel `(x, y)` as agreeing: the neighbour is above the
    edge threshold and the absolute difference of the raw orientations is
    below 0.5 or above `π - 0.5`. -/
noncomputable def neighborAgrees (img : Img) (x y nx ny : ℕ) : Prop :=
  50 < edgesC img nx ny ∧
    (|edgeAngleC img nx ny - edgeAngleC img x y| < 1/2 ∨
      Real.pi - 1/2 < |edgeAngleC img nx ny - edgeAngleC img x y|)

noncomputable instance (img : Img) (x y nx ny : ℕ) :
    Decidable (neighborAgrees img x y nx ny) := by
  unfold neighborAgrees; infer_instance

/-- Number of agreeing 8-connected neighbours of `(x, y)`, as accumulated
    by the scan loop. -/
noncomputable def similarNeighbors (img : Img) (x y : ℕ) : ℕ :=
  ∑ dy ∈ Finset.range 3, ∑ dx ∈ Finset.range 3,
    if (dy, dx) = (1, 1) then 0
    else if neighborAgrees img x y (x + dx - 1) (y + dy - 1) then 1 else 0

/-- Count of coherent edge pixels: interior pixels above the threshold with
    more than 6 agreeing neighbours. -/
noncomputable def coherentEdges (img : Img) : ℕ :=
  ∑ p ∈ interiorGrid img,
    if 50 < edgesC img p.1 p.2 ∧ 6 < similarNeighbors img p.1 p.2 then 1 else 0

/-- Coherent fraction over all edge pixels (guarded at 0). -/
noncomputable def coherenceRatio (img : Img) : ℚ :=
  if 0 < edgePixels img then (coherentEdges img : ℚ) / edgePixels img else 0

/-- `coherenceRatio > 0.6 → +0.3`. -/
noncomputable def edgeCoherenceTerm (img : Img) : ℝ :=
  if (3/5 : ℚ) < coherenceRatio img then 3/10 else 0

/-- Edge pixels inside the 20×20 tile with top-left corner `(x0, y0)`. -/
noncomputable def regionEdgeCount (img : Img) (x0 y0 : ℕ) : ℕ :=
  ∑ ry ∈ Finset.range 20, ∑ rx ∈ Finset.range 20,
    if 50 < edgesC img (x0 + rx) (y0 + ry) then 1 else 0

/-- Smooth tiles counted by the scan loop (tile offsets are multiples of 20
    strictly below `dimension - 20`). -/
noncomputable def smoothRegions (img : Img) : ℕ :=
  ∑ j ∈ Finset.range (steps (img.height - 20) 20),
    ∑ i ∈ Finset.range (steps (img.width - 20) 20),
      if regionEdgeCount img (20 * i) (20 * j) < 5 then 1 else 0

/-- `Math.floor(width/20) * Math.floor(height/20)`. -/
def totalRegions (img : Img) : ℕ :=
  (img.width / 20) * (img.height / 20)

/-- Smooth-tile ratio; `NaN` when there are no tiles. -/
noncomputable def smoothRatio (img : Img) : Option ℚ :=
  nanDiv (smoothRegions img : ℚ) (totalRegions img : ℚ)

/-- `smoothRatio > 0.4 → +0.3`. -/
noncomputable def edgeSmoothTerm (img : Img) : ℝ :=
  if oGT (smoothRatio img) (2/5) then 3/10 else 0

/-- Final edge score. -/
noncomputable def analyzeEdgesScore (img : Img) : ℝ :=
  clamp01 (edgeStrongTerm img + edgeVarTerm img + edgeCoherenceTerm img
    + edgeSmoothTerm img)

/-- Largest gradient magnitude (`Math.max(...edges)`, with the all-zero
    border entries the maximum is also the maximum against 0). -/
noncomputable def edgeMax (img : Img) : ℝ :=
  (pixelGrid img).fold max 0 (fun p => edgesC img p.1 p.2)

/-- Edge visualization sample: normalized magnitude, stored clamped. -/
noncomputable def edgeViz (img : Img) (i : ℕ) : ℝ :=
  if i % 4 = 3 then 255
  else match nanDiv (edgesC img ((i / 4) % img.width) ((i / 4) / img.width))
              (edgeMax img) with
       | none => 0
       | some v => min 255 (max 0 (v * 255))

/-! ## Noise Module (`src/lib/modules/noise_analysis.ts`) -/

/-- RGB variance of the 8×8 block with top-left corner `(x0, y0)`. -/
def blockVariance (img : Img) (x0 y0 : ℕ) : ℚ :=
  let meanR := (∑ ry ∈ Finset.range 8, ∑ rx ∈ Finset.range 8,
    img.data (((y0 + ry) * img.width + (x0 + rx)) * 4)) / 64
  let meanG := (∑ ry ∈ Finset.range 8, ∑ rx ∈ Finset.range 8,
    img.data (((y0 + ry) * img.width + (x0 + rx)) * 4 + 1)) / 64
  let meanB := (∑ ry ∈ Finset.range 8, ∑ rx ∈ Finset.range 8,
    img.data (((y0 + ry) * img.width + (x0 + rx)) * 4 + 2)) / 64
  (∑ ry ∈ Finset.range 8, ∑ rx ∈ Finset.range 8,
    ((img.data (((y0 + ry) * img.width + (x0 + rx)) * 4) - meanR) ^ 2
      + (img.data (((y0 + ry) * img.width + (x0 + rx)) * 4 + 1) - meanG) ^ 2
      + (img.data (((y0 + ry) * img.width + (x0 + rx)) * 4 + 2) - meanB) ^ 2)) / 64

/-- Top-left corners visited by the 8×8 block scan, in scan order
    (rows outer). -/
def noiseBlockIdx (img : Img) : List (ℕ × ℕ) :=
  (List.range (steps (img.height - 8) 8)).flatMap fun jy =>
    (List.range (steps (img.width - 8) 8)).map fun jx => (8 * jx, 8 * jy)

/-- Flat blocks: scanned blocks with RGB variance below 100, in scan
    order. -/
def flatRegions (img : Img) : List (ℕ × ℕ) :=
  (noiseBlockIdx img).filter fun pos => blockVariance img pos.1 pos.2 < 100

/-- One noise sample: mean of the horizontal and vertical pixel-to-pixel
    red-channel differences at offset `(rx, ry)` of a flat block. -/
def noiseSampleAt (img : Img) (pos : ℕ × ℕ) (ry rx : ℕ) : ℚ :=
  (|img.data (((pos.2 + ry) * img.width + (pos.1 + rx)) * 4)
      - img.data (((pos.2 + ry) * img.width + (pos.1 + rx + 1)) * 4)|
    + |img.data (((pos.2 + ry) * img.width + (pos.1 + rx)) * 4)
      - img.data (((pos.2 + ry + 1) * img.width + (pos.1 + rx)) * 4)|) / 2

/-- All noise samples, drawn from the first 50 flat blocks in scan
    order. -/
def noiseSamples (img : Img) : List ℚ :=
  ((flatRegions img).take 50).flatMap fun pos =>
    (List.range 7).flatMap fun ry =>
      (List.range 7).map fun rx => noiseSampleAt img pos ry rx

/-- Mean noise sample (diagnostic `avgNoise`), 0 without samples. -/
def avgNoise (img : Img) : ℚ :=
  if 0 < (noiseSamples img).length then
    (noiseSamples img).sum / (noiseSamples img).length
  else 0

/-- Variance of the noise samples, 0 without samples. -/
def noiseVariance (img : Img) : ℚ :=
  if 0 < (noiseSamples img).length then
    ((noiseSamples img).map fun v => (v - avgNoise img) ^ 2).sum
      / (noiseSamples img).length
  else 0

/-- `avgNoise < 1.5 → +0.5; avgNoise > 15 → +0.2`. -/
def noiseCleanTerm (img : Img) : ℚ :=
  if avgNoise img < 3/2 then 1/2
  else if 15 < avgNoise img then 1/5
  else 0

/-- Coefficient of variation of the noise samples (source guard
    `avgNoise > 0`). -/
noncomputable def noiseCV (img : Img) : ℝ :=
  if 0 < avgNoise img then
    Real.sqrt ((noiseVariance img : ℝ)) / (avgNoise img : ℝ)
  else 0

/-- `CV < 0.3 → +0.3; CV > 2.0 → +0.2`. -/
noncomputable def noiseConsistTerm (img : Img) : ℝ :=
  if noiseCV img < 3/10 then 3/10
  else if 2 < noiseCV img then 1/5
  else 0

/-- Window similarity of the periodicity scan: matching positions between
    the 4-sample windows at `i` and `i+4`. -/
def patternSimilarity (img : Img) (i : ℕ) : ℕ :=
  ((List.range 4).filter fun j =>
    |(noiseSamples img).getD (i + j) 0 - (noiseSamples img).getD (i + 4 + j) 0| < 2).length

/-- Number of near-matching adjacent window pairs. -/
def periodicPatterns (img : Img) : ℕ :=
  ((List.range ((noiseSamples img).length - 8)).filter fun i =>
    3 ≤ patternSimilarity img i).length

/-- `periodicPatterns > 0.1 * samples → +0.4`. -/
def noisePeriodicTerm (img : Img) : ℚ :=
  if ((noiseSamples img).length : ℚ) * (1/10) < (periodicPatterns img : ℚ)
  then 2/5 else 0

/-- Ratio of very flat blocks (variance < 5) among the flat blocks. -/
def tooFlatRatio (img : Img) : ℚ :=
  if 0 < (flatRegions img).length then
    (((flatRegions img).filter fun pos =>
        blockVariance img pos.1 pos.2 < 5).length : ℚ)
      / (flatRegions img).length
  else 0

/-- `tooFlatRatio > 0.3 → +0.3`. -/
def noiseFlatTerm (img : Img) : ℚ :=
  if 3/10 < tooFlatRatio img then 3/10 else 0

/-- Final noise score. -/
noncomputable def analyzeNoiseScore (img : Img) : ℝ :=
  clamp01 (((noiseCleanTerm img : ℚ) : ℝ) + noiseConsistTerm img
    + ((noisePeriodicTerm img + noiseFlatTerm img : ℚ) : ℝ))

/-- Diagnostic `noiseConsistency = 1 - CV`. -/
noncomputable def noiseConsistency (img : Img) : ℝ :=
  1 - noiseCV img

/-- Laplacian high-pass response of one channel at pixel `(x, y)`. -/
def laplacianAt (img : Img) (x y c : ℕ) : ℚ :=
  ∑ dy ∈ Finset.range 3, ∑ dx ∈ Finset.range 3,
    img.data (((y + dy - 1) * img.width + (x + dx - 1)) * 4 + c)
      * (if (dy, dx) = (1, 1) then -8 else 1)

/-- Noise visualization sample: amplified absolute Laplacian at interior
    pixels (alpha 255, border pixels left at 0), stored clamped. -/
def noiseViz (img : Img) (i : ℕ) : ℚ :=
  let p := i / 4
  let x := p % img.width
  let y := p / img.width
  if ¬ (1 ≤ x ∧ x < img.width - 1 ∧ 1 ≤ y ∧ y < img.height - 1) then 0
  else if i % 4 = 3 then 255
  else min 255 (max 0 (|laplacianAt img x y (i % 4)| * 5))

/-! ## Texture Module (`src/lib/modules/texture_analysis.ts`) -/

/-- The 8 neighbours of the LBP descriptor, in source (clockwise) order. -/
def lbpNeighbor (img : Img) (x y : ℕ) : ℕ → ℚ
  | 0 => gray img ((y - 1) * img.width + (x - 1))
  | 1 => gray img ((y - 1) * img.width + x)
  | 2 => gray img ((y - 1) * img.width + (x + 1))
  | 3 => gray img (y * img.width + (x + 1))
  | 4 => gray img ((y + 1) * img.width + (x + 1))
  | 5 => gray img ((y + 1) * img.width + x)
  | 6 => gray img ((y + 1) * img.width + (x - 1))
  | _ => gray img (y * img.width + (x - 1))

/-- Local binary pattern at an interior pixel: bit `i` is set when
    neighbour `i` is at least the centre. -/
def lbpPattern (img : Img) (x y : ℕ) : ℕ :=
  ∑ i ∈ Finset.range 8,
    if gray img (y * img.width + x) ≤ lbpNeighbor img x y i then 2 ^ i else 0

/-- The `lbp` array: pattern at interior pixels, 0 elsewhere. -/
def lbpC (img : Img) (x y : ℕ) : ℕ :=
  if isInterior img x y then lbpPattern img x y else 0

/-- LBP histogram (filled over interior pixels only). -/
def lbpHistogram (img : Img) (k : ℕ) : ℕ :=
  ∑ p ∈ interiorGrid img, if lbpPattern img p.1 p.2 = k then 1 else 0

/-- Total LBP count (sum over the 256 bins). -/
def totalLBP (img : Img) : ℕ :=
  ∑ k ∈ Finset.range 256, lbpHistogram img k

/-- Number of nonzero histogram bins. -/
def nonZeroPatterns (img : Img) : ℕ :=
  ((Finset.range 256).filter fun k => 0 < lbpHistogram img k).card

/-- `nonZeroPatterns < 80 → +0.4`. -/
def textureVarietyTerm (img : Img) : ℚ :=
  if nonZeroPatterns img < 80 then 2/5 else 0

/-- Largest histogram bin (`Math.max(...lbpHistogram)`). -/
def maxPatternCount (img : Img) : ℕ :=
  (Finset.range 256).sup (lbpHistogram img)

/-- Fraction of the dominant pattern; `NaN` when there are no interior
    pixels. -/
def dominanceRatio (img : Img) : Option ℚ :=
  nanDiv (maxPatternCount img : ℚ) (totalLBP img : ℚ)

/-- `dominanceRatio > 0.3 → +0.3`. -/
def textureDominanceTerm (img : Img) : ℚ :=
  if oGT (dominanceRatio img) (3/10) then 3/10 else 0

/-- Top-left corners of the 32×32 blocks visited by the self-similarity
    scan, in scan order. -/
def textureBlocks (img : Img) : List (ℕ × ℕ) :=
  (List.range (steps (img.height - 32) 32)).flatMap fun jy =>
    (List.range (steps (img.width - 32) 32)).map fun jx => (32 * jx, 32 * jy)

/-- LBP histogram of the 32×32 block at `(bx, by)` (block scans stay within
    the image for all visited blocks). -/
def textureBlockHist (img : Img) (bx by2 k : ℕ) : ℕ :=
  ∑ y ∈ Finset.range 32, ∑ x ∈ Finset.range 32,
    if lbpC img (bx + x) (by2 + y) = k then 1 else 0

/-- Histogram-intersection similarity of two blocks. -/
def textureBlockSim (img : Img) (b1 b2 : ℕ × ℕ) : ℕ :=
  ∑ k ∈ Finset.range 256,
    min (textureBlockHist img b1.1 b1.2 k) (textureBlockHist img b2.1 b2.2 k)

/-- Whether an ordered block pair is counted as repetitive: non-adjacent
    (both coordinate distances above the block size) and intersection above
    80% of the block pixel count. -/
def repetitivePair (img : Img) (b1 b2 : ℕ × ℕ) : Prop :=
  ¬ ((max b1.1 b2.1 - min b1.1 b2.1) ≤ 32 ∧ (max b1.2 b2.2 - min b1.2 b2.2) ≤ 32)
    ∧ (1024 : ℚ) * (4/5) < (textureBlockSim img b1 b2 : ℚ)

instance (img : Img) (b1 b2 : ℕ × ℕ) : Decidable (repetitivePair img b1 b2) := by
  unfold repetitivePair; infer_instance

/-- Ordered pairs of distinct scanned blocks (`j > i` in scan order). -/
def textureBlockPairs (img : Img) : List ((ℕ × ℕ) × (ℕ × ℕ)) :=
  (textureBlocks img).flatMap fun b1 =>
    ((textureBlocks img).filter fun b2 =>
      b1.2 * img.width + b1.1 < b2.2 * img.width + b2.1).map fun b2 => (b1, b2)

/-- Number of repetitive block pairs. -/
def repetitiveBlocks (img : Img) : ℕ :=
  ((textureBlockPairs img).filter fun pr => repetitivePair img pr.1 pr.2).length

/-- Repetitive-pair ratio over all unordered pairs: 0 with no blocks,
    `NaN` (0/0) with exactly one block. -/
def repetitionRatio (img : Img) : Option ℚ :=
  if 0 < (textureBlocks img).length then
    nanDiv (repetitiveBlocks img : ℚ)
      (((textureBlocks img).length * ((textureBlocks img).length - 1) / 2 : ℕ) : ℚ)
  else some 0

/-- `repetitionRatio > 0.05 → +0.4`. -/
def textureRepetitionTerm (img : Img) : ℚ :=
  if oGT (repetitionRatio img) (1/20) then 2/5 else 0

/-- Variance of the LBP values over the 16×16 region at `(x0, y0)`. -/
def textureRegionVariance (img : Img) (x0 y0 : ℕ) : ℚ :=
  let m := (∑ ry ∈ Finset.range 16, ∑ rx ∈ Finset.range 16,
    (lbpC img (x0 + rx) (y0 + ry) : ℚ)) / 256
  (∑ ry ∈ Finset.range 16, ∑ rx ∈ Finset.range 16,
    ((lbpC img (x0 + rx) (y0 + ry) : ℚ) - m) ^ 2) / 256

/-- Low-variance 16×16 regions counted by the scan loop. -/
def lowVarianceRegions (img : Img) : ℕ :=
  ∑ j ∈ Finset.range (steps (img.height - 16) 16),
    ∑ i ∈ Finset.range (steps (img.width - 16) 16),
      if textureRegionVariance img (16 * i) (16 * j) < 500 then 1 else 0

/-- `Math.floor(width/16) * Math.floor(height/16)`. -/
def totalTestRegions (img : Img) : ℕ :=
  (img.width / 16) * (img.height / 16)

/-- Smooth-region ratio of the texture module; `NaN` without regions. -/
def textureSmoothRatio (img : Img) : Option ℚ :=
  nanDiv (lowVarianceRegions img : ℚ) (totalTestRegions img : ℚ)

/-- `textureSmoothRatio > 0.4 → +0.3`. -/
def textureSmoothTerm (img : Img) : ℚ :=
  if oGT (textureSmoothRatio img) (2/5) then 3/10 else 0

/-- Shannon entropy of the LBP histogram. -/
noncomputable def lbpEntropy (img : Img) : ℝ :=
  -∑ k ∈ Finset.range 256,
    if 0 < lbpHistogram img k then
      ((lbpHistogram img k : ℝ) / (totalLBP img : ℝ))
        * Real.logb 2 ((lbpHistogram img k : ℝ) / (totalLBP img : ℝ))
    else 0

/-- Normalized entropy (diagnostic `textureComplexity`). -/
noncomputable def normalizedEntropy (img : Img) : ℝ :=
  lbpEntropy img / Real.logb 2 256

/-- `normalizedEntropy < 0.4 → +0.3`. -/
noncomputable def textureEntropyTerm (img : Img) : ℝ :=
  if normalizedEntropy img < 2/5 then 3/10 else 0

/-- Final texture score. -/
noncomputable def analyzeTextureScore (img : Img) : ℝ :=
  clamp01 (((textureVarietyTerm img + textureDominanceTerm img
    + textureRepetitionTerm img + textureSmoothTerm img : ℚ) : ℝ)
    + textureEntropyTerm img)

/-- Texture visualization sample: the LBP value map (alpha 255). -/
def textureViz (img : Img) (i : ℕ) : ℚ :=
  if i % 4 = 3 then 255
  else (lbpC img ((i / 4) % img.width) ((i / 4) / img.width) : ℚ)

/-! ## Color Module (`src/lib/modules/color_analysis.ts`)

The saturation histogram is filled by the source but never read; it is
omitted here.  The visualization is a bar chart drawn from the three
channel histograms, which are therefore the visualization data of the
embedded module. -/

/-- Channel histogram: occurrences of value `v` in channel `c`
    (samples are integral in a real run, so bin indexing is value
    equality). -/
def colorHist (img : Img) (c v : ℕ) : ℕ :=
  ((Finset.range (numPixels img)).filter fun p => img.data (4 * p + c) = v).card

/-- HSV saturation of pixel `p` as computed by the source. -/
def saturation (img : Img) (p : ℕ) : ℚ :=
  let r := img.data (4 * p)
  let g := img.data (4 * p + 1)
  let b := img.data (4 * p + 2)
  if max r (max g b) = 0 then 0
  else (max r (max g b) - min r (min g b)) / max r (max g b) * 255

/-- Mean saturation (diagnostic `avgSaturation`). -/
def avgSaturation (img : Img) : ℚ :=
  (∑ p ∈ Finset.range (numPixels img), saturation img p) / numPixels img

/-- Pixels with all channels at least 250. -/
def clippedHighlights (img : Img) : ℕ :=
  ((Finset.range (numPixels img)).filter fun p =>
    250 ≤ img.data (4 * p) ∧ 250 ≤ img.data (4 * p + 1)
      ∧ 250 ≤ img.data (4 * p + 2)).card

/-- Pixels with all channels at most 5. -/
def clippedShadows (img : Img) : ℕ :=
  ((Finset.range (numPixels img)).filter fun p =>
    img.data (4 * p) ≤ 5 ∧ img.data (4 * p + 1) ≤ 5
      ∧ img.data (4 * p + 2) ≤ 5).card

/-- Diagnostic `clippingRatio`. -/
def clippingRatio (img : Img) : ℚ :=
  ((clippedHighlights img + clippedShadows img : ℕ) : ℚ) / numPixels img

/-- Significant peaks of a channel histogram: interior bins exceeding both
    neighbours by 50% and exceeding 2% of the pixel count. -/
def histogramPeaks (img : Img) (c : ℕ) : ℕ :=
  ((Finset.Ico 1 255).filter fun i =>
    (colorHist img c (i - 1) : ℚ) * (3/2) < (colorHist img c i : ℚ)
      ∧ (colorHist img c (i + 1) : ℚ) * (3/2) < (colorHist img c i : ℚ)
      ∧ (numPixels img : ℚ) * (1/50) < (colorHist img c i : ℚ)).card

/-- `rPeaks + gPeaks + bPeaks < 10 → +0.3`. -/
def colorPeaksTerm (img : Img) : ℚ :=
  if histogramPeaks img 0 + histogramPeaks img 1 + histogramPeaks img 2 < 10
  then 3/10 else 0

/-- `avgSaturation > 180 → +0.4; < 30 → +0.2`. -/
def colorSaturationTerm (img : Img) : ℚ :=
  if 180 < avgSaturation img then 2/5
  else if avgSaturation img < 30 then 1/5
  else 0

/-- `clippingRatio > 0.15 → +0.3`. -/
def colorClippingTerm (img : Img) : ℚ :=
  if 3/20 < clippingRatio img then 3/10 else 0

/-- Variance of the 256 bins of a channel histogram. -/
def colorVariance (img : Img) (c : ℕ) : ℚ :=
  let m := (∑ v ∈ Finset.range 256, (colorHist img c v : ℚ)) / 256
  (∑ v ∈ Finset.range 256, ((colorHist img c v : ℚ) - m) ^ 2) / 256

/-- `avgVariance < 0.5 * totalPixels → +0.2`. -/
def colorVarianceTerm (img : Img) : ℚ :=
  if (colorVariance img 0 + colorVariance img 1 + colorVariance img 2) / 3
      < (numPixels img : ℚ) * (1/2)
  then 1/5 else 0

/-- Too-smooth 3-bin windows of the red histogram over bins 10 to 245. -/
def gradientSmoothness (img : Img) : ℕ :=
  ((Finset.Ico 10 246).filter fun i =>
    let m := ((colorHist img 0 (i - 1) + colorHist img 0 i
      + colorHist img 0 (i + 1) : ℕ) : ℚ) / 3
    (((colorHist img 0 (i - 1) : ℚ) - m) ^ 2 + ((colorHist img 0 i : ℚ) - m) ^ 2
        + ((colorHist img 0 (i + 1) : ℚ) - m) ^ 2) / 3 < m * (1/10) ∧ 10 < m).card

/-- `gradientSmoothness > 50 → +0.3`. -/
def colorGradientTerm (img : Img) : ℚ :=
  if 50 < gradientSmoothness img then 3/10 else 0

/-- Final color score. -/
def analyzeColorScore (img : Img) : ℚ :=
  clamp01 (colorPeaksTerm img + colorSaturationTerm img + colorClippingTerm img
    + colorVarianceTerm img + colorGradientTerm img)

/-! ## Frequency Module, FFT (`src/lib/modules/fft.ts`)

The module consumes the externally resized 512×512 RGBA sample array and
the 1-D length-512 transform of the external `fft.js` library, passed as a
function on complex rows (pairs of real and imaginary parts). -/

/-- A 1-D transform on length-512 complex sequences. -/
def Transform : Type :=
  (ℕ → ℝ × ℝ) → ℕ → ℝ × ℝ

/-- Grayscale of the resized image (`re` holds the resized RGBA data). -/
def fftGray (re : ℕ → ℚ) (p : ℕ) : ℚ :=
  299/1000 * re (4*p) + 587/1000 * re (4*p + 1) + 114/1000 * re (4*p + 2)

/-- Input grid of the 2-D pass: grayscale in the real plane, zero imaginary
    plane (`f y x`). -/
def fftInit (re : ℕ → ℚ) : ℕ → ℕ → ℝ × ℝ :=
  fun y x => ((fftGray re (y * 512 + x) : ℝ), 0)

/-- Row pass: the 1-D transform applied to every row. -/
def fftRows (T : Transform) (f : ℕ → ℕ → ℝ × ℝ) : ℕ → ℕ → ℝ × ℝ :=
  fun y x => T (f y) x

/-- Column pass: the 1-D transform applied to every column. -/
def fftCols (T : Transform) (f : ℕ → ℕ → ℝ × ℝ) : ℕ → ℕ → ℝ × ℝ :=
  fun y x => T (fun y2 => f y2 x) y

/-- The 2-D grid after both passes. -/
def fftGrid (T : Transform) (re : ℕ → ℚ) : ℕ → ℕ → ℝ × ℝ :=
  fftCols T (fftRows T (fftInit re))

/-- Log-magnitude of the quadrant-shifted spectrum at position `(x, y)`
    (the shift by 256 is an involution, so position `(x, y)` holds the
    magnitude of source frequency `((y+256)%512, (x+256)%512)`). -/
noncomputable def fftMag (T : Transform) (re : ℕ → ℚ) (x y : ℕ) : ℝ :=
  Real.log (Real.sqrt ((fftGrid T re ((y + 256) % 512) ((x + 256) % 512)).1 ^ 2
    + (fftGrid T re ((y + 256) % 512) ((x + 256) % 512)).2 ^ 2) + 1)

/-- The 512×512 spectrum positions. -/
def fftPositions : Finset (ℕ × ℕ) :=
  Finset.range 512 ×ˢ Finset.range 512

/-- Largest log-magnitude (accumulated from an initial 0). -/
noncomputable def fftMaxMag (T : Transform) (re : ℕ → ℚ) : ℝ :=
  fftPositions.fold max 0 (fun p => fftMag T re p.1 p.2)

/-- Distance of position `(x, y)` from the spectrum centre. -/
noncomputable def fftDist (x y : ℕ) : ℝ :=
  Real.sqrt (((x : ℝ) - 256) ^ 2 + ((y : ℝ) - 256) ^ 2)

/-- Total spectral energy. -/
noncomputable def totalEnergy (T : Transform) (re : ℕ → ℚ) : ℝ :=
  ∑ p ∈ fftPositions, fftMag T re p.1 p.2

/-- Low-band energy (radius at most 64). -/
noncomputable def lowFreqEnergy (T : Transform) (re : ℕ → ℚ) : ℝ :=
  ∑ p ∈ fftPositions,
    if fftDist p.1 p.2 ≤ 64 then fftMag T re p.1 p.2 else 0

/-- High-band energy (radius above 128). -/
noncomputable def highFreqEnergy (T : Transform) (re : ℕ → ℚ) : ℝ :=
  ∑ p ∈ fftPositions,
    if fftDist p.1 p.2 ≤ 64 then 0
    else if fftDist p.1 p.2 ≤ 128 then 0
    else fftMag T re p.1 p.2

/-- Low-band energy fraction (`NaN` when the spectrum is identically
    zero). -/
noncomputable def lowFreqRatio (T : Transform) (re : ℕ → ℚ) : Option ℝ :=
  nanDiv (lowFreqEnergy T re) (totalEnergy T re)

/-- High-band energy fraction. -/
noncomputable def highFreqRatio (T : Transform) (re : ℕ → ℚ) : Option ℝ :=
  nanDiv (highFreqEnergy T re) (totalEnergy T re)

/-- `lowFreqRatio > 0.95 → +0.5; < 0.7 → +0.2`. -/
noncomputable def fftLowTerm (T : Transform) (re : ℕ → ℚ) : ℝ :=
  if oGT (lowFreqRatio T re) (19/20) then 1/2
  else if oLT (lowFreqRatio T re) (7/10) then 1/5
  else 0

/-- `highFreqRatio > 0.15 → +0.4`. -/
noncomputable def fftHighTerm (T : Transform) (re : ℕ → ℚ) : ℝ :=
  if oGT (highFreqRatio T re) (3/20) then 2/5 else 0

/-- JavaScript float remainder `a % b` for nonnegative `a` and positive `b`
    (where truncated and floored division agree). -/
noncomputable def rmod (a b : ℝ) : ℝ :=
  a - b * ⌊a / b⌋

/-- Peak positions: distance above 5 and magnitude above 70% of the
    maximum. -/
noncomputable def fftPeaks (T : Transform) (re : ℕ → ℚ) : Finset (ℕ × ℕ) :=
  fftPositions.filter fun p =>
    5 < fftDist p.1 p.2 ∧ fftMaxMag T re * (7/10) < fftMag T re p.1 p.2

/-- Point-symmetry test of a peak pair about the centre. -/
noncomputable def fftSymmetric (p q : ℕ × ℕ) : Prop :=
  |((p.1 : ℝ) - 256) + ((q.1 : ℝ) - 256)| < 5
    ∧ |((p.2 : ℝ) - 256) + ((q.2 : ℝ) - 256)| < 5

/-- Equal-radial-spacing test at a 90°-multiple angular offset. -/
noncomputable def fftGridSpacing (p q : ℕ × ℕ) : Prop :=
  |fftDist p.1 p.2 - fftDist q.1 q.2| < fftDist p.1 p.2 * (1/10)
    ∧ (rmod (|atan2 ((p.2 : ℝ) - 256) ((p.1 : ℝ) - 256)
          - atan2 ((q.2 : ℝ) - 256) ((q.1 : ℝ) - 256)|) (Real.pi / 2) < 1/5
        ∨ Real.pi / 2 - 1/5
          < rmod (|atan2 ((p.2 : ℝ) - 256) ((p.1 : ℝ) - 256)
              - atan2 ((q.2 : ℝ) - 256) ((q.1 : ℝ) - 256)|) (Real.pi / 2))

noncomputable instance (p q : ℕ × ℕ) : Decidable (fftSymmetric p q) := by
  unfold fftSymmetric; infer_instance

noncomputable instance (p q : ℕ × ℕ) : Decidable (fftGridSpacing p q) := by
  unfold fftGridSpacing; infer_instance

/-- Number of grid-pattern entries: every ordered peak pair (scan order)
    may contribute one entry for symmetry and one for spacing. -/
noncomputable def gridPatternCount (T : Transform) (re : ℕ → ℚ) : ℕ :=
  ∑ p ∈ fftPeaks T re, ∑ q ∈ (fftPeaks T re).filter
      (fun q => p.2 * 512 + p.1 < q.2 * 512 + q.1),
    ((if fftSymmetric p q then 1 else 0) + (if fftGridSpacing p q then 1 else 0))

/-- `gridPatterns > 3 → +0.5; > 0 → +0.2`. -/
noncomputable def fftGridTerm (T : Transform) (re : ℕ → ℚ) : ℝ :=
  if 3 < gridPatternCount T re then 1/2
  else if 0 < gridPatternCount T re then 1/5
  else 0

/-- Energy inside the four 32×32 corner blocks. -/
noncomputable def cornerEnergy (T : Transform) (re : ℕ → ℚ) : ℝ :=
  ∑ c ∈ ({(0, 0), (480, 0), (0, 480), (480, 480)} : Finset (ℕ × ℕ)),
    ∑ dy ∈ Finset.range 32, ∑ dx ∈ Finset.range 32,
      fftMag T re (c.1 + dx) (c.2 + dy)

/-- `cornerEnergy / totalEnergy > 0.05 → +0.4`. -/
noncomputable def fftCornerTerm (T : Transform) (re : ℕ → ℚ) : ℝ :=
  if oGT (nanDiv (cornerEnergy T re) (totalEnergy T re)) (1/20) then 2/5 else 0

/-- Final FFT score. -/
noncomputable def analyzeFFTScore (T : Transform) (re : ℕ → ℚ) : ℝ :=
  clamp01 (fftLowTerm T re + fftHighTerm T re + fftGridTerm T re
    + fftCornerTerm T re)

/-- Spectrum visualization sample: normalized log-magnitude (alpha 255),
    stored clamped; `NaN` stores as 0. -/
noncomputable def fftViz (T : Transform) (re : ℕ → ℚ) (i : ℕ) : ℝ :=
  if i % 4 = 3 then 255
  else match nanDiv (fftMag T re ((i / 4) % 512) ((i / 4) / 512))
              (fftMaxMag T re) with
       | none => 0
       | some v => min 255 (max 0 (v * 255))

/-! ## The full pipeline (`analyzeImage` in `src/lib/analysis.ts`)

External collaborators are inputs: the decoded image, the externally
resized 512×512 copy, the re-encoded ELA copy, the extracted EXIF tag map
(with the width/height values the metadata module reads), and the file
identity fields; the `fft.js` transform is a function parameter. -/

/-- Everything `analyzeImage` consumes, as produced by the external
    collaborators from the input file. -/
structure AnalysisInput where
  img : Img
  resized : ℕ → ℚ
  reencoded : ℕ → ℚ
  tags : TagMap
  metaWidth : ℕ
  metaHeight : ℕ
  fileName : String
  fileSize : ℕ
  mimeType : String

/-- One module outcome: score, named diagnostics, visualization samples. -/
structure ModuleOutcome where
  score : ℝ
  diagnostics : List (String × ℝ)
  viz : ℕ → ℝ

/-- The aggregated result of one run. -/
structure AnalysisResult where
  fileName : String
  fileSize : ℕ
  dimWidth : ℕ
  dimHeight : ℕ
  mimeType : String
  metadata : ModuleOutcome
  ela : ModuleOutcome
  fft : ModuleOutcome
  color : ModuleOutcome
  edge : ModuleOutcome
  noise : ModuleOutcome
  texture : ModuleOutcome
  overallScore : ℝ
  confidence : ℝ
  verdict : Verdict

/-- The seven module scores of an input, in aggregator order. -/
noncomputable def moduleScores (T : Transform) (inp : AnalysisInput) : Fin 7 → ℝ
  | 0 => ((analyzeMetadataScore inp.tags inp.metaWidth inp.metaHeight : ℚ) : ℝ)
  | 1 => analyzeELAScore inp.img inp.reencoded
  | 2 => analyzeFFTScore T inp.resized
  | 3 => ((analyzeColorScore inp.img : ℚ) : ℝ)
  | 4 => analyzeEdgesScore inp.img
  | 5 => analyzeNoiseScore inp.img
  | 6 => analyzeTextureScore inp.img

/-- The full deterministic pipeline. -/
noncomputable def analyzeImage (T : Transform) (inp : AnalysisInput) :
    AnalysisResult where
  fileName := inp.fileName
  fileSize := inp.fileSize
  dimWidth := inp.img.width
  dimHeight := inp.img.height
  mimeType := inp.mimeType
  metadata :=
    { score := moduleScores T inp 0
      diagnostics := [("exifPresent", if inp.tags.hasTags then 1 else 0)]
      viz := fun _ => 0 }
  ela :=
    { score := moduleScores T inp 1
      diagnostics := []
      viz := fun i => ((elaViz inp.img inp.reencoded i : ℚ) : ℝ) }
  fft :=
    { score := moduleScores T inp 2
      diagnostics := []
      viz := fftViz T inp.resized }
  color :=
    { score := moduleScores T inp 3
      diagnostics := [("avgSaturation", ((avgSaturation inp.img : ℚ) : ℝ)),
                      ("clippingRatio", ((clippingRatio inp.img : ℚ) : ℝ))]
      viz := fun v => ((colorHist inp.img 0 v + colorHist inp.img 1 v
        + colorHist inp.img 2 v : ℕ) : ℝ) }
  edge :=
    { score := moduleScores T inp 4
      diagnostics := [("avgEdgeStrength", avgEdgeStrength inp.img),
                      ("edgeRatio", ((edgeRatio inp.img : ℚ) : ℝ))]
      viz := edgeViz inp.img }
  noise :=
    { score := moduleScores T inp 5
      diagnostics := [("avgNoise", ((avgNoise inp.img : ℚ) : ℝ)),
                      ("noiseConsistency", noiseConsistency inp.img)]
      viz := fun i => ((noiseViz inp.img i : ℚ) : ℝ) }
  texture :=
    { score := moduleScores T inp 6
      diagnostics := [("textureComplexity", normalizedEntropy inp.img),
                      ("repetitionScore", match repetitionRatio inp.img with
                        | none => 0
                        | some v => ((v : ℚ) : ℝ))]
      viz := fun i => ((textureViz inp.img i : ℚ) : ℝ) }
  overallScore := overallScore (moduleScores T inp)
  confidence := confidence (moduleScores T inp)
  verdict := verdict (moduleScores T inp)

/-! ## Specification-side formulations

Definitions following the words of the specification, for comparison with
the source-derived definitions above. -/

/-- The coherence criterion as the specification words it: the two edge
    orientations differ by less than 0.5 rad modulo `π`. -/
noncomputable def specOrientationAgrees (a b : ℝ) : Prop :=
  rmod |a - b| Real.pi < 1/2 ∨ Real.pi - 1/2 < rmod |a - b| Real.pi

/-- The smooth-tile count as the specification words it: over all
    `floor(width/20) × floor(height/20)` tiles of the image. -/
noncomputable def specSmoothTileCount (img : Img) : ℕ :=
  ∑ j ∈ Finset.range (img.height / 20), ∑ i ∈ Finset.range (img.width / 20),
    if regionEdgeCount img (20 * i) (20 * j) < 5 then 1 else 0

/-- The smooth-block ratio as the specification words it. -/
noncomputable def specSmoothRatio (img : Img) : Option ℚ :=
  nanDiv (specSmoothTileCount img : ℚ) (totalRegions img : ℚ)

/-! ## Concrete inputs used in counterexamples and witnesses -/

/-- A uniform solid-colour RGBA image. -/
def uniformImg (w h : ℕ) (r g b a : ℚ) : Img where
  width := w
  height := h
  data := fun i =>
    if i % 4 = 0 then r else if i % 4 = 1 then g else if i % 4 = 2 then b else a

/-- Grey values of the 4×3 counterexample image for the coherence
    criterion (pixel index `p = y*4 + x`). -/
def cEdgeVals : ℕ → ℚ
  | 0 => 100 | 1 => 100 | 2 => 50 | 3 => 150
  | 4 => 100 | 5 => 100 | 6 => 100 | 7 => 100
  | 8 => 100 | 9 => 150 | 10 => 50 | _ => 0

/-- The 4×3 counterexample image: grey pixels whose Sobel responses at the
    interior pixels `(1,1)` and `(2,1)` are `(-100, 100)` and
    `(-100, -100)`. -/
def cEdgeImg : Img where
  width := 4
  height := 3
  data := fun i => if i % 4 = 3 then 255 else cEdgeVals (i / 4)

/-- The 40×40 uniform counterexample image for the smooth-block claim. -/
def img40 : Img :=
  uniformImg 40 40 100 100 100 255

/-- An 8×8 image: too small for the noise-module block scan to visit any
    block. -/
def img8 : Img where
  width := 8
  height := 8
  data := fun _ => 0

/-- A degenerate 1×1 input with an all-black resized copy, used to witness
    the zero-denominator claims. -/
def inpDegenerate : AnalysisInput where
  img := { width := 1, height := 1, data := fun _ => 0 }
  resized := fun _ => 0
  reencoded := fun _ => 0
  tags := { software := none, userComment := none, otherTagCount := 0 }
  metaWidth := 1
  metaHeight := 1
  fileName := ""
  fileSize := 0
  mimeType := ""

/-- The identity as a (degenerate) 1-D transform; maps the zero sequence to
    itself, which is all the zero-spectrum theorems require. -/
def idTransform : Transform :=
  fun f => f

/-- A degenerate 1×1 black image. -/
def img1 : Img where
  width := 1
  height := 1
  data := fun _ => 0

/-- The all-zero sample array. -/
def zeroFun : ℕ → ℚ :=
  fun _ => 0

/-- A tag map whose comment holds generation parameters. -/
def seedTags : TagMap where
  software := none
  userComment := some ("seed: 12345".toList)
  otherTagCount := 0

/-- Concrete scores used by the aggregator witnesses. -/
def sampleScores : Fin 7 → ℚ
  | 0 => 1
  | 1 => 0
  | 2 => 1
  | 3 => 0
  | 4 => 1
  | 5 => 1
  | 6 => 0

/-! # Theorems -/

/-! ## Aggregator lemmas -/

section Aggregator

variable {K : Type*} [LinearOrderedField K]

theorem baseWeight_eval :
    (baseWeight 0 : K) = 1/10 ∧ (baseWeight 1 : K) = 1/5
    ∧ (baseWeight 2 : K) = 3/20 ∧ (baseWeight 3 : K) = 3/20
    ∧ (baseWeight 4 : K) = 3/20 ∧ (baseWeight 5 : K) = 3/20
    ∧ (baseWeight 6 : K) = 1/10 :=
  ⟨rfl, rfl, rfl, rfl, rfl, rfl, rfl⟩

theorem baseWeight_pos (i : Fin 7) : (0 : K) < baseWeight i := by
  fin_cases i <;> norm_num [baseWeight]

theorem baseWeight_sum : ∑ i, (baseWeight i : K) = 1 := by
  rw [Fin.sum_univ_seven]
  norm_num [baseWeight]

theorem moduleConfidence_nonneg (s : Fin 7 → K) (i : Fin 7) :
    0 ≤ moduleConfidence s i :=
  mul_nonneg (abs_nonneg _) (by norm_num)

theorem boostedWeight_pos (s : Fin 7 → K) (i : Fin 7) :
    0 < boostedWeight s i := by
  refine mul_pos (baseWeight_pos i) ?_
  have := moduleConfidence_nonneg s i
  nlinarith

theorem baseWeight_le_boosted (s : Fin 7 → K) (i : Fin 7) :
    baseWeight i ≤ boostedWeight s i := by
  have h1 := baseWeight_pos (K := K) i
  have h2 := moduleConfidence_nonneg s i
  unfold boostedWeight
  nlinarith

theorem totalWeight_pos (s : Fin 7 → K) : 0 < totalWeight s :=
  Finset.sum_pos (fun i _ => boostedWeight_pos s i) ⟨0, Finset.mem_univ 0⟩

theorem one_le_totalWeight (s : Fin 7 → K) : 1 ≤ totalWeight s := by
  calc (1 : K) = ∑ i, baseWeight i := baseWeight_sum.symm
    _ ≤ totalWeight s := Finset.sum_le_sum fun i _ => baseWeight_le_boosted s i

theorem adjustedWeight_nonneg (s : Fin 7 → K) (i : Fin 7) :
    0 ≤ adjustedWeight s i := by
  unfold adjustedWeight
  split_ifs
  · exact le_of_lt (div_pos (boostedWeight_pos s i) (totalWeight_pos s))
  · exact le_of_lt (baseWeight_pos i)

theorem adjustedWeight_sum (s : Fin 7 → K) : ∑ i, adjustedWeight s i = 1 := by
  unfold adjustedWeight
  split_ifs
  · rw [← Finset.sum_div]
    exact div_self (ne_of_gt (totalWeight_pos s))
  · exact baseWeight_sum

theorem overallScore_nonneg (s : Fin 7 → K) (hs : ∀ i, 0 ≤ s i ∧ s i ≤ 1) :
    0 ≤ overallScore s :=
  Finset.sum_nonneg fun i _ => mul_nonneg (hs i).1 (adjustedWeight_nonneg s i)

theorem overallScore_le_one (s : Fin 7 → K) (hs : ∀ i, 0 ≤ s i ∧ s i ≤ 1) :
    overallScore s ≤ 1 := by
  calc overallScore s ≤ ∑ i, adjustedWeight s i :=
        Finset.sum_le_sum fun i _ => by
          have h := adjustedWeight_nonneg s i
          nlinarith [(hs i).1, (hs i).2]
    _ = 1 := adjustedWeight_sum s

theorem verdictOf_eq_ai_iff (o c : K) :
    verdictOf o c = Verdict.likelyAI ↔ 13/20 < o ∧ ¬ c < 3/10 := by
  unfold verdictOf preVerdict
  split_ifs <;> simp_all

theorem verdictOf_eq_suspicious_iff (o c : K) :
    verdictOf o c = Verdict.suspicious ↔
      (2/5 < o ∧ ¬ 13/20 < o) ∨ (13/20 < o ∧ c < 3/10) := by
  unfold verdictOf preVerdict
  split_ifs <;> simp_all

theorem verdictOf_eq_real_iff (o c : K) :
    verdictOf o c = Verdict.likelyReal ↔ ¬ 2/5 < o := by
  unfold verdictOf preVerdict
  split_ifs with h1 h2 h3 <;> simp_all <;> linarith

end Aggregator

/-! ## C1: the verdict characterization -/

/-- C1: for any seven module scores in `[0,1]`, the aggregator verdict is
    `Likely AI` exactly when the overall score exceeds 0.65 and the
    confidence is at least 0.3; `Suspicious` exactly when the overall score
    is in (0.40, 0.65], or exceeds 0.65 with confidence below 0.3;
    `Likely Real` exactly when the overall score is at most 0.40. -/
theorem verdict_characterization {K : Type*} [LinearOrderedField K]
    (s : Fin 7 → K) (hs : ∀ i, 0 ≤ s i ∧ s i ≤ 1) :
    (verdict s = Verdict.likelyAI ↔
        13/20 < overallScore s ∧ 3/10 ≤ confidence s)
  ∧ (verdict s = Verdict.suspicious ↔
        ((2/5 < overallScore s ∧ overallScore s ≤ 13/20)
          ∨ (13/20 < overallScore s ∧ confidence s < 3/10)))
  ∧ (verdict s = Verdict.likelyReal ↔ overallScore s ≤ 2/5) := by
  unfold verdict
  refine ⟨?_, ?_, ?_⟩
  · rw [verdictOf_eq_ai_iff, not_lt]
  · rw [verdictOf_eq_suspicious_iff, not_lt]
  · rw [verdictOf_eq_real_iff, not_lt]

/-- Witness for C1 at concrete scores. -/
theorem verdict_characterization_witness :
    (∀ i, 0 ≤ sampleScores i ∧ sampleScores i ≤ 1)
    ∧ (verdict sampleScores = Verdict.likelyAI ↔
        13/20 < overallScore sampleScores ∧ 3/10 ≤ confidence sampleScores) :=
  ⟨by decide, (verdict_characterization sampleScores (by decide)).1⟩

/-! ## C2: weight renormalization and convexity -/

/-- C2: with positive total confidence the renormalized boosted weights sum
    to exactly 1 (hence within 1e-9); with zero total confidence the base
    weights, which sum to 1, are used unchanged; the adjusted weights are
    nonnegative, so the overall score is a convex combination of the seven
    module scores and lies in `[0,1]` whenever every score does. -/
theorem aggregator_convexity {K : Type*} [LinearOrderedField K]
    (s : Fin 7 → K) (hs : ∀ i, 0 ≤ s i ∧ s i ≤ 1) :
    (0 < totalConfidence s →
        (∑ i, adjustedWeight s i) = 1
        ∧ |(∑ i, adjustedWeight s i) - 1| ≤ 1/1000000000)
  ∧ (totalConfidence s = 0 → ∀ i, adjustedWeight s i = baseWeight i)
  ∧ (∑ i, (baseWeight i : K)) = 1
  ∧ (∀ i, 0 ≤ adjustedWeight s i)
  ∧ 0 ≤ overallScore s ∧ overallScore s ≤ 1 := by
  refine ⟨fun _ => ⟨adjustedWeight_sum s, ?_⟩, fun h i => ?_, baseWeight_sum,
    adjustedWeight_nonneg s, overallScore_nonneg s hs, overallScore_le_one s hs⟩
  · rw [adjustedWeight_sum s]
    simp
  · unfold adjustedWeight
    rw [if_neg (by rw [h]; exact lt_irrefl 0)]

/-- Witness for C2 at concrete scores. -/
theorem aggregator_convexity_witness :
    (∀ i, 0 ≤ sampleScores i ∧ sampleScores i ≤ 1)
    ∧ 0 ≤ overallScore sampleScores ∧ overallScore sampleScores ≤ 1 :=
  ⟨by decide, (aggregator_convexity sampleScores (by decide)).2.2.2.2⟩

/-! ## C3: every module score lies in [0, 1] -/

theorem softwareTerm_nonneg (t : TagMap) : 0 ≤ softwareTerm t := by
  unfold softwareTerm
  cases t.software with
  | none => norm_num
  | some sw =>
    show (0:ℚ) ≤ if suspiciousSoftware.any (fun s => hasSub sw s) then 2/5 else 0
    split_ifs <;> norm_num

theorem commentTerm_nonneg (t : TagMap) : 0 ≤ commentTerm t := by
  unfold commentTerm
  cases t.userComment with
  | none => norm_num
  | some c =>
    show (0:ℚ) ≤ if generationMarkers.any (fun m => hasSub c m) then 4/5 else 0
    split_ifs <;> norm_num

theorem metadataRawScore_nonneg (t : TagMap) (w h : ℕ) :
    0 ≤ metadataRawScore t w h := by
  unfold metadataRawScore
  have h1 : (0:ℚ) ≤ if t.hasTags then softwareTerm t + commentTerm t else 3/10 := by
    split_ifs
    · exact add_nonneg (softwareTerm_nonneg t) (commentTerm_nonneg t)
    · norm_num
  have h2 : (0:ℚ) ≤ if isSuspiciousRes w h then 1/5 else 0 := by
    split_ifs <;> norm_num
  have h3 : (0:ℚ) ≤ if w = h ∧ 256 < w then 1/10 else 0 := by
    split_ifs <;> norm_num
  linarith

/-- C3: each of the seven modules returns a score in `[0,1]`: the six
    pixel modules clamp their additive total at both 0 and 1, and the
    metadata module clamps only at the top since its additive terms are all
    nonnegative. -/
theorem module_scores_in_unit_interval (t : TagMap) (w h : ℕ) (img : Img)
    (re rez : ℕ → ℚ) (T : Transform) :
    (0 ≤ analyzeMetadataScore t w h ∧ analyzeMetadataScore t w h ≤ 1)
  ∧ (0 ≤ analyzeELAScore img re ∧ analyzeELAScore img re ≤ 1)
  ∧ (0 ≤ analyzeFFTScore T rez ∧ analyzeFFTScore T rez ≤ 1)
  ∧ (0 ≤ analyzeColorScore img ∧ analyzeColorScore img ≤ 1)
  ∧ (0 ≤ analyzeEdgesScore img ∧ analyzeEdgesScore img ≤ 1)
  ∧ (0 ≤ analyzeNoiseScore img ∧ analyzeNoiseScore img ≤ 1)
  ∧ (0 ≤ analyzeTextureScore img ∧ analyzeTextureScore img ≤ 1) := by
  refine ⟨⟨le_min (metadataRawScore_nonneg t w h) (by norm_num), min_le_right _ _⟩,
    ?_, ?_, ?_, ?_, ?_, ?_⟩ <;>
    exact ⟨clamp01_nonneg _, clamp01_le_one (by norm_num) _⟩

/-! ## C4: the pipeline is a deterministic function of its input -/

/-- C4: two runs on inputs whose decoded samples, resized samples,
    re-encoded samples, extracted tags and file identity agree produce
    identical `AnalysisResult`s (all scores, diagnostics, visualization
    samples, overall score, confidence and verdict equal); in particular
    running the pipeline twice on byte-identical input gives identical
    results. -/
theorem analyzeImage_deterministic (T : Transform) (inp1 inp2 : AnalysisInput)
    (hw : inp1.img.width = inp2.img.width)
    (hh : inp1.img.height = inp2.img.height)
    (hd : ∀ i, inp1.img.data i = inp2.img.data i)
    (hrz : ∀ i, inp1.resized i = inp2.resized i)
    (hre : ∀ i, inp1.reencoded i = inp2.reencoded i)
    (ht : inp1.tags = inp2.tags)
    (hmw : inp1.metaWidth = inp2.metaWidth)
    (hmh : inp1.metaHeight = inp2.metaHeight)
    (hfn : inp1.fileName = inp2.fileName)
    (hfs : inp1.fileSize = inp2.fileSize)
    (hmt : inp1.mimeType = inp2.mimeType) :
    analyzeImage T inp1 = analyzeImage T inp2 := by
  obtain ⟨⟨w1, h1, d1⟩, rz1, re1, t1, mw1, mh1, fn1, fs1, mt1⟩ := inp1
  obtain ⟨⟨w2, h2, d2⟩, rz2, re2, t2, mw2, mh2, fn2, fs2, mt2⟩ := inp2
  simp only at hw hh hd hrz hre ht hmw hmh hfn hfs hmt
  have hd' : d1 = d2 := funext hd
  have hrz' : rz1 = rz2 := funext hrz
  have hre' : re1 = re2 := funext hre
  subst hw hh hd' hrz' hre' ht hmw hmh hfn hfs hmt
  rfl

/-- Witness for C4: the determinism theorem applied at a concrete input. -/
theorem analyzeImage_deterministic_witness :
    analyzeImage idTransform inpDegenerate = analyzeImage idTransform inpDegenerate :=
  analyzeImage_deterministic idTransform inpDegenerate inpDegenerate rfl rfl
    (fun _ => rfl) (fun _ => rfl) (fun _ => rfl) rfl rfl rfl rfl rfl rfl

/-! ## C8: a seed comment adds exactly 0.8 before clamping -/

theorem subAt_append (l a b : List Char) (h : subAt l (a ++ b) = true) :
    subAt l a = true := by
  induction a generalizing l with
  | nil => cases l <;> rfl
  | cons c cs ih =>
    cases l with
    | nil => simp [subAt] at h
    | cons x xs =>
      simp only [List.cons_append, subAt, Bool.and_eq_true] at h ⊢
      exact ⟨h.1, ih xs h.2⟩

theorem hasSub_append (l a b : List Char) (h : hasSub l (a ++ b) = true) :
    hasSub l a = true := by
  induction l with
  | nil =>
    simp only [hasSub, List.isEmpty_eq_true, List.append_eq_nil] at h
    simp [hasSub, h.1]
  | cons c cs ih =>
    simp only [hasSub, Bool.or_eq_true] at h ⊢
    rcases h with h | h
    · exact Or.inl (subAt_append _ a b h)
    · exact Or.inr (ih h)

/-- C8: for any tag map whose `UserComment` contains `"seed: 12345"`, the
    metadata pre-clamp score is exactly 0.8 larger than with the same tags
    and a comment free of all generation markers: the generation-parameter
    term contributes exactly +0.8, once. -/
theorem metadata_seed_adds_point_eight (t : TagMap) (w h : ℕ)
    (c c2 : List Char) (hc : t.userComment = some c)
    (hseed : hasSub c ("seed: 12345".toList) = true)
    (hclean : ∀ m ∈ generationMarkers, hasSub c2 m = false) :
    metadataRawScore t w h
      = metadataRawScore { t with userComment := some c2 } w h + 4/5 := by
  have hsub : hasSub c ("seed:".toList) = true := by
    refine hasSub_append c ("seed:".toList) (" 12345".toList) ?_
    have : ("seed:".toList ++ " 12345".toList) = "seed: 12345".toList := by decide
    rw [this]
    exact hseed
  have hct : commentTerm t = 4/5 := by
    unfold commentTerm
    rw [hc]
    show (if generationMarkers.any (fun m => hasSub c m) then (4:ℚ)/5 else 0) = 4/5
    rw [if_pos]
    simp only [generationMarkers, List.any_cons, List.any_nil, Bool.or_eq_true]
    exact Or.inr (Or.inl hsub)
  have hct2 : commentTerm { t with userComment := some c2 } = 0 := by
    unfold commentTerm
    show (if generationMarkers.any (fun m => hasSub c2 m) then (4:ℚ)/5 else 0) = 0
    rw [if_neg]
    simp only [List.any_eq_true, not_exists, not_and]
    intro m hm
    simp [hclean m hm]
  have hht : t.hasTags := Or.inr (Or.inl (by rw [hc]; rfl))
  have hht2 : ({ t with userComment := some c2 } : TagMap).hasTags :=
    Or.inr (Or.inl rfl)
  have hsw : softwareTerm { t with userComment := some c2 } = softwareTerm t := rfl
  unfold metadataRawScore
  rw [if_pos hht, if_pos hht2, hct, hct2, hsw]
  ring

/-- Witness for C8 at a concrete tag map. -/
theorem metadata_seed_adds_point_eight_witness :
    seedTags.userComment = some ("seed: 12345".toList)
    ∧ hasSub ("seed: 12345".toList) ("seed: 12345".toList) = true
    ∧ (∀ m ∈ generationMarkers, hasSub [] m = false)
    ∧ metadataRawScore seedTags 512 512
        = metadataRawScore { seedTags with userComment := some [] } 512 512 + 4/5 :=
  ⟨rfl, by decide, by decide,
    metadata_seed_adds_point_eight seedTags 512 512 _ [] rfl (by decide) (by decide)⟩

/-! ## C9: the noise module without flat blocks -/

/-- C9: when no scanned 8×8 block has RGB variance below 100, the flat-block
    list is empty, `avgNoise` and the coefficient of variation are 0, only
    the too-clean (+0.5) and uniform-noise (+0.3) terms fire, the score is
    exactly 0.8, and the `noiseConsistency` diagnostic is exactly 1. -/
theorem noise_no_flat_blocks (img : Img)
    (hflat : ∀ pos ∈ noiseBlockIdx img, ¬ blockVariance img pos.1 pos.2 < 100) :
    flatRegions img = []
  ∧ avgNoise img = 0
  ∧ noiseCV img = 0
  ∧ noiseCleanTerm img = 1/2
  ∧ noiseConsistTerm img = 3/10
  ∧ noisePeriodicTerm img = 0
  ∧ noiseFlatTerm img = 0
  ∧ analyzeNoiseScore img = 4/5
  ∧ noiseConsistency img = 1 := by
  have hfr : flatRegions img = [] := by
    unfold flatRegions
    rw [List.filter_eq_nil_iff]
    intro pos hpos
    simp only [decide_eq_true_eq]
    exact hflat pos hpos
  have hns : noiseSamples img = [] := by
    unfold noiseSamples
    rw [hfr]
    rfl
  have hlen : (noiseSamples img).length = 0 := by rw [hns]; rfl
  have havg : avgNoise img = 0 := by
    unfold avgNoise
    rw [hlen]
    norm_num
  have hcv : noiseCV img = 0 := by
    unfold noiseCV
    rw [havg]
    norm_num
  have hclean : noiseCleanTerm img = 1/2 := by
    unfold noiseCleanTerm
    rw [havg]
    norm_num
  have hconsist : noiseConsistTerm img = 3/10 := by
    unfold noiseConsistTerm
    rw [hcv]
    norm_num
  have hper : noisePeriodicTerm img = 0 := by
    unfold noisePeriodicTerm
    rw [if_neg]
    unfold periodicPatterns
    rw [hlen]
    norm_num
  have hflatterm : noiseFlatTerm img = 0 := by
    unfold noiseFlatTerm tooFlatRatio
    rw [hfr]
    norm_num
  refine ⟨hfr, havg, hcv, hclean, hconsist, hper, hflatterm, ?_, ?_⟩
  · unfold analyzeNoiseScore
    rw [hclean, hconsist, hper, hflatterm]
    unfold clamp01
    push_cast
    norm_num
  · unfold noiseConsistency
    rw [hcv]
    norm_num

/-- Witness for C9 at a concrete image with no scanned blocks. -/
theorem noise_no_flat_blocks_witness :
    (∀ pos ∈ noiseBlockIdx img8, ¬ blockVariance img8 pos.1 pos.2 < 100)
    ∧ analyzeNoiseScore img8 = 4/5 ∧ noiseConsistency img8 = 1 :=
  ⟨by decide, (noise_no_flat_blocks img8 (by decide)).2.2.2.2.2.2.2⟩

/-! ## C10: degenerate inputs with zero denominators are safe -/

theorem elaQuadPixels_eq_zero (img : Img) (hsmall : img.width < 2 ∨ img.height < 2)
    (rx ry : ℕ) : elaQuadPixels img rx ry = 0 := by
  unfold elaQuadPixels
  rcases hsmall with hw | hh
  · have : img.width / 2 = 0 := Nat.div_eq_of_lt hw
    rw [this]
    simp
  · have : img.height / 2 = 0 := Nat.div_eq_of_lt hh
    rw [this]
    simp

theorem elaRegionVariance_none (img : Img) (re : ℕ → ℚ)
    (hsmall : img.width < 2 ∨ img.height < 2) :
    elaRegionVariance img re = none := by
  have hq : ∀ rx ry, elaQuadMean img re rx ry = none := by
    intro rx ry
    unfold elaQuadMean
    rw [elaQuadPixels_eq_zero img hsmall rx ry]
    simp [nanDiv]
  unfold elaRegionVariance elaQuadSqDev elaRegionMean
  rw [hq 0 0, hq 1 0, hq 0 1, hq 1 1]
  rfl

/-- Per-position magnitudes of a zero spectrum. -/
theorem fftMag_zero (T : Transform) (rez : ℕ → ℚ)
    (hT : ∀ f, (∀ i, f i = ((0 : ℝ), (0 : ℝ))) → ∀ i, T f i = (0, 0))
    (hg : ∀ i, fftGray rez i = 0) (x y : ℕ) : fftMag T rez x y = 0 := by
  have hinit : ∀ y2 i, fftInit rez y2 i = (0, 0) := by
    intro y2 i
    unfold fftInit
    rw [hg]
    norm_num
  have hrows : ∀ y2 i, fftRows T (fftInit rez) y2 i = (0, 0) := by
    intro y2 i
    exact hT (fftInit rez y2) (hinit y2) i
  have hgrid : ∀ y2 i, fftGrid T rez y2 i = (0, 0) := by
    intro y2 i
    unfold fftGrid fftCols
    exact hT (fun y3 => fftRows T (fftInit rez) y3 i) (fun y3 => hrows y3 i) y2
  unfold fftMag
  rw [hgrid]
  norm_num

theorem fold_max_zero (s : Finset (ℕ × ℕ)) (f : ℕ × ℕ → ℝ)
    (hf : ∀ p ∈ s, f p = 0) : s.fold max 0 f = 0 := by
  induction s using Finset.induction_on with
  | empty => rfl
  | insert ha ih =>
    rw [Finset.fold_insert ha]
    rw [hf _ (Finset.mem_insert_self _ _)]
    rw [ih fun p hp => hf p (Finset.mem_insert_of_mem hp)]
    simp

/-- C10: degenerate inputs that zero a scoring denominator are safe.  An
    image with width or height below 2 zeroes the ELA quadrant pixel
    counts, and the quadrant-variance comparison fails on the resulting
    `NaN`, adding nothing; width or height below 20 and 16 zero the edge
    and texture smooth-region totals with the same outcome; an all-black
    resized image zeroes the FFT total energy, all ratio-guarded terms add
    nothing, and the FFT score is 0.  Every score stays in `[0,1]`. -/
theorem degenerate_inputs_safe (img : Img) (re : ℕ → ℚ) (T : Transform)
    (rez : ℕ → ℚ) :
    ((img.width < 2 ∨ img.height < 2) →
        (∀ rx ry, elaQuadPixels img rx ry = 0) ∧ elaRegionTerm img re = 0
        ∧ 0 ≤ analyzeELAScore img re ∧ analyzeELAScore img re ≤ 1)
  ∧ ((img.width < 20 ∨ img.height < 20) →
        totalRegions img = 0 ∧ edgeSmoothTerm img = 0
        ∧ 0 ≤ analyzeEdgesScore img ∧ analyzeEdgesScore img ≤ 1)
  ∧ ((img.width < 16 ∨ img.height < 16) →
        totalTestRegions img = 0 ∧ textureSmoothTerm img = 0
        ∧ 0 ≤ analyzeTextureScore img ∧ analyzeTextureScore img ≤ 1)
  ∧ ((∀ f, (∀ i, f i = ((0 : ℝ), (0 : ℝ))) → ∀ i, T f i = (0, 0)) →
      (∀ i, fftGray rez i = 0) →
        totalEnergy T rez = 0 ∧ fftLowTerm T rez = 0 ∧ fftHighTerm T rez = 0
        ∧ fftGridTerm T rez = 0 ∧ fftCornerTerm T rez = 0
        ∧ analyzeFFTScore T rez = 0 ∧ 0 ≤ analyzeFFTScore T rez
        ∧ analyzeFFTScore T rez ≤ 1) := by
  refine ⟨fun hsmall => ?_, fun hsmall => ?_, fun hsmall => ?_, fun hT hg => ?_⟩
  · refine ⟨elaQuadPixels_eq_zero img hsmall, ?_, clamp01_nonneg _,
      clamp01_le_one (by norm_num) _⟩
    unfold elaRegionTerm
    rw [elaRegionVariance_none img re hsmall]
    rfl
  · have htot : totalRegions img = 0 := by
      unfold totalRegions
      rcases hsmall with hw | hh
      · rw [Nat.div_eq_of_lt hw, Nat.zero_mul]
      · rw [Nat.div_eq_of_lt hh, Nat.mul_zero]
    refine ⟨htot, ?_, clamp01_nonneg _, clamp01_le_one (by norm_num) _⟩
    unfold edgeSmoothTerm smoothRatio
    rw [htot]
    simp [nanDiv, oGT]
  · have htot : totalTestRegions img = 0 := by
      unfold totalTestRegions
      rcases hsmall with hw | hh
      · rw [Nat.div_eq_of_lt hw, Nat.zero_mul]
      · rw [Nat.div_eq_of_lt hh, Nat.mul_zero]
    refine ⟨htot, ?_, clamp01_nonneg _, clamp01_le_one (by norm_num) _⟩
    unfold textureSmoothTerm textureSmoothRatio
    rw [htot]
    simp [nanDiv, oGT]
  · have hmag := fftMag_zero T rez hT hg
    have htot : totalEnergy T rez = 0 := by
      unfold totalEnergy
      exact Finset.sum_eq_zero fun p _ => hmag p.1 p.2
    have hlow : fftLowTerm T rez = 0 := by
      unfold fftLowTerm lowFreqRatio
      rw [htot]
      simp [nanDiv, oGT, oLT]
    have hhigh : fftHighTerm T rez = 0 := by
      unfold fftHighTerm highFreqRatio
      rw [htot]
      simp [nanDiv, oGT]
    have hpeaks : fftPeaks T rez = ∅ := by
      unfold fftPeaks
      rw [Finset.filter_eq_empty_iff]
      intro p _
      rw [not_and_or]
      right
      rw [hmag p.1 p.2]
      have hmax : fftMaxMag T rez = 0 := by
        unfold fftMaxMag
        exact fold_max_zero _ _ fun q _ => hmag q.1 q.2
      rw [hmax]
      norm_num
    have hgrid : fftGridTerm T rez = 0 := by
      unfold fftGridTerm gridPatternCount
      rw [hpeaks]
      simp
    have hcorner : fftCornerTerm T rez = 0 := by
      unfold fftCornerTerm
      have hc : cornerEnergy T rez = 0 := by
        unfold cornerEnergy
        exact Finset.sum_eq_zero fun c _ =>
          Finset.sum_eq_zero fun dy _ =>
            Finset.sum_eq_zero fun dx _ => hmag (c.1 + dx) (c.2 + dy)
      rw [hc, htot]
      simp [nanDiv, oGT]
    have hscore : analyzeFFTScore T rez = 0 := by
      unfold analyzeFFTScore
      rw [hlow, hhigh, hgrid, hcorner]
      unfold clamp01
      norm_num
    refine ⟨htot, hlow, hhigh, hgrid, hcorner, hscore, ?_, ?_⟩ <;>
      rw [hscore] <;> norm_num

/-- Witness for C10 at a concrete degenerate input. -/
theorem degenerate_inputs_safe_witness :
    ((∀ rx ry, elaQuadPixels img1 rx ry = 0) ∧ elaRegionTerm img1 zeroFun = 0
      ∧ 0 ≤ analyzeELAScore img1 zeroFun ∧ analyzeELAScore img1 zeroFun ≤ 1)
  ∧ (totalRegions img1 = 0 ∧ edgeSmoothTerm img1 = 0
      ∧ 0 ≤ analyzeEdgesScore img1 ∧ analyzeEdgesScore img1 ≤ 1)
  ∧ (totalTestRegions img1 = 0 ∧ textureSmoothTerm img1 = 0
      ∧ 0 ≤ analyzeTextureScore img1 ∧ analyzeTextureScore img1 ≤ 1)
  ∧ (totalEnergy idTransform zeroFun = 0
      ∧ fftLowTerm idTransform zeroFun = 0 ∧ fftHighTerm idTransform zeroFun = 0
      ∧ fftGridTerm idTransform zeroFun = 0 ∧ fftCornerTerm idTransform zeroFun = 0
      ∧ analyzeFFTScore idTransform zeroFun = 0
      ∧ 0 ≤ analyzeFFTScore idTransform zeroFun
      ∧ analyzeFFTScore idTransform zeroFun ≤ 1) := by
  have h := degenerate_inputs_safe img1 zeroFun idTransform zeroFun
  exact ⟨h.1 (Or.inl (by decide)), h.2.1 (Or.inl (by decide)),
    h.2.2.1 (Or.inl (by decide)),
    h.2.2.2 (fun f hf => hf) (fun i => by norm_num [fftGray, zeroFun])⟩

/-! ## Uniform-image lemmas -/

theorem uniform_data_r (w h : ℕ) (r g b a : ℚ) (k : ℕ) :
    (uniformImg w h r g b a).data (4 * k) = r := by
  simp [uniformImg, Nat.mul_mod_right]

theorem uniform_data_g (w h : ℕ) (r g b a : ℚ) (k : ℕ) :
    (uniformImg w h r g b a).data (4 * k + 1) = g := by
  simp [uniformImg, Nat.mul_add_mod]

theorem uniform_data_b (w h : ℕ) (r g b a : ℚ) (k : ℕ) :
    (uniformImg w h r g b a).data (4 * k + 2) = b := by
  simp [uniformImg, Nat.mul_add_mod]

theorem uniform_gray (w h : ℕ) (r g b a : ℚ) (p : ℕ) :
    gray (uniformImg w h r g b a) p
      = 299/1000 * r + 587/1000 * g + 114/1000 * b := by
  unfold gray
  rw [uniform_data_r, uniform_data_g, uniform_data_b]

theorem uniform_gx (w h : ℕ) (r g b a : ℚ) (x y : ℕ) :
    gxAt (uniformImg w h r g b a) x y = 0 := by
  unfold gxAt
  simp only [uniform_gray]
  simp [Finset.sum_range_succ, sobelXK]
  ring

theorem uniform_gy (w h : ℕ) (r g b a : ℚ) (x y : ℕ) :
    gyAt (uniformImg w h r g b a) x y = 0 := by
  unfold gyAt
  simp only [uniform_gray]
  simp [Finset.sum_range_succ, sobelYK]
  ring

theorem uniform_edgesC (w h : ℕ) (r g b a : ℚ) (x y : ℕ) :
    edgesC (uniformImg w h r g b a) x y = 0 := by
  unfold edgesC edgeMag
  rw [uniform_gx, uniform_gy]
  split_ifs <;> simp

/-! ## C6: the smooth-block tiling (corrected) -/

/-- Counterexample to C6 as stated: on a uniform 40×40 image every one of
    the `floor(40/20)^2 = 4` tiles is smooth, so the claimed ratio is 1 and
    exceeds 0.4, yet the scan loop visits only the single tile with offsets
    below `40 - 20`, the code ratio is 1/4, and no +0.3 is added. -/
theorem smooth_block_claim_false :
    specSmoothRatio img40 = some 1
    ∧ oGT (specSmoothRatio img40) (2/5)
    ∧ smoothRatio img40 = some (1/4)
    ∧ edgeSmoothTerm img40 = 0 := by
  have hcnt : ∀ x0 y0, regionEdgeCount img40 x0 y0 = 0 := by
    intro x0 y0
    unfold regionEdgeCount
    refine Finset.sum_eq_zero fun ry _ => Finset.sum_eq_zero fun rx _ => ?_
    rw [if_neg]
    unfold img40
    rw [uniform_edgesC]
    norm_num
  have htot : totalRegions img40 = 4 := by decide
  have hspec : specSmoothTileCount img40 = 4 := by
    unfold specSmoothTileCount
    have h20 : img40.height / 20 = 2 := by decide
    have w20 : img40.width / 20 = 2 := by decide
    rw [h20, w20]
    simp [Finset.sum_range_succ, hcnt]
  have hcode : smoothRegions img40 = 1 := by
    unfold smoothRegions
    have hsh : steps (img40.height - 20) 20 = 1 := by decide
    have hsw : steps (img40.width - 20) 20 = 1 := by decide
    rw [hsh, hsw]
    simp [Finset.sum_range_succ, hcnt]
  refine ⟨?_, ?_, ?_, ?_⟩
  · unfold specSmoothRatio
    rw [hspec, htot]
    norm_num [nanDiv]
  · unfold specSmoothRatio
    rw [hspec, htot]
    norm_num [nanDiv, oGT]
  · unfold smoothRatio
    rw [hcode, htot]
    norm_num [nanDiv]
  · unfold edgeSmoothTerm smoothRatio
    rw [hcode, htot]
    norm_num [nanDiv, oGT]

/-- C6 amended: the scanned smooth-block count is over the tiles with
    top-left offsets that are multiples of 20 strictly below
    `dimension - 20` (not over all `floor(w/20) × floor(h/20)` tiles); the
    ratio divides it by `floor(w/20) × floor(h/20)`, and +0.3 is added
    exactly when this ratio exceeds 0.4 (never when the tile count is
    zero). -/
theorem smooth_block_amended (img : Img) :
    smoothRegions img =
      ((Finset.range (steps (img.height - 20) 20)
          ×ˢ Finset.range (steps (img.width - 20) 20)).filter fun t =>
        regionEdgeCount img (20 * t.2) (20 * t.1) < 5).card
  ∧ smoothRatio img = nanDiv (smoothRegions img : ℚ) (totalRegions img : ℚ)
  ∧ (edgeSmoothTerm img = 3/10 ↔ oGT (smoothRatio img) (2/5)) := by
  refine ⟨?_, rfl, ?_⟩
  · rw [Finset.card_filter, Finset.sum_product]
    rfl
  · unfold edgeSmoothTerm
    split_ifs with h <;> simp [h] <;> norm_num

/-! ## C5: the coherence criterion (corrected) -/

theorem cEdge_gray (p : ℕ) : gray cEdgeImg p = cEdgeVals p := by
  unfold gray cEdgeImg
  norm_num [Nat.mul_mod_right, Nat.mul_add_mod, Nat.mul_add_div]
  ring

theorem cEdge_gx_p : gxAt cEdgeImg 1 1 = -100 := by
  unfold gxAt
  simp only [cEdge_gray]
  simp [Finset.sum_range_succ, sobelXK, cEdgeVals, cEdgeImg]
  try norm_num

theorem cEdge_gy_p : gyAt cEdgeImg 1 1 = 100 := by
  unfold gyAt
  simp only [cEdge_gray]
  simp [Finset.sum_range_succ, sobelYK, cEdgeVals, cEdgeImg]
  try norm_num

theorem cEdge_gx_q : gxAt cEdgeImg 2 1 = -100 := by
  unfold gxAt
  simp only [cEdge_gray]
  simp [Finset.sum_range_succ, sobelXK, cEdgeVals, cEdgeImg]
  try norm_num

theorem cEdge_gy_q : gyAt cEdgeImg 2 1 = -100 := by
  unfold gyAt
  simp only [cEdge_gray]
  simp [Finset.sum_range_succ, sobelYK, cEdgeVals, cEdgeImg]
  try norm_num

theorem cEdge_interior_p : isInterior cEdgeImg 1 1 := by decide

theorem cEdge_interior_q : isInterior cEdgeImg 2 1 := by decide

theorem cEdge_mag_p : edgesC cEdgeImg 1 1 = Real.sqrt 20000 := by
  unfold edgesC edgeMag
  rw [if_pos cEdge_interior_p, cEdge_gx_p, cEdge_gy_p]
  norm_num

theorem cEdge_mag_q : edgesC cEdgeImg 2 1 = Real.sqrt 20000 := by
  unfold edgesC edgeMag
  rw [if_pos cEdge_interior_q, cEdge_gx_q, cEdge_gy_q]
  norm_num

theorem sqrt_20000_gt_50 : (50 : ℝ) < Real.sqrt 20000 :=
  (Real.lt_sqrt (by norm_num)).mpr (by norm_num)

theorem cEdge_angle_p : edgeAngleC cEdgeImg 1 1 = Real.pi * (3/4) := by
  unfold edgeAngleC
  rw [if_pos cEdge_interior_p, cEdge_gx_p, cEdge_gy_p]
  unfold atan2
  rw [if_neg (by norm_num), if_pos (by norm_num), if_pos (by norm_num)]
  rw [show (((100:ℚ):ℝ) / ((-100:ℚ):ℝ)) = -1 by norm_num]
  rw [show (-1 : ℝ) = -(1 : ℝ) by norm_num, Real.arctan_neg, Real.arctan_one]
  ring

theorem cEdge_angle_q : edgeAngleC cEdgeImg 2 1 = -(Real.pi * (3/4)) := by
  unfold edgeAngleC
  rw [if_pos cEdge_interior_q, cEdge_gx_q, cEdge_gy_q]
  unfold atan2
  rw [if_neg (by norm_num), if_pos (by norm_num), if_neg (by norm_num)]
  rw [show (((-100:ℚ):ℝ) / ((-100:ℚ):ℝ)) = 1 by norm_num, Real.arctan_one]
  ring

theorem cEdge_angle_diff :
    |edgeAngleC cEdgeImg 2 1 - edgeAngleC cEdgeImg 1 1| = Real.pi * (3/2) := by
  rw [cEdge_angle_p, cEdge_angle_q]
  rw [show -(Real.pi * (3/4)) - Real.pi * (3/4) = -(Real.pi * (3/2)) by ring]
  rw [abs_neg, abs_of_nonneg (by positivity)]

/-- Counterexample to C5 as stated: on the 4×3 image `cEdgeImg` the
    coherence scan at the interior pixel `(1,1)` (magnitude above 50)
    counts the neighbour `(2,1)` as agreeing — its raw orientation
    difference is `3π/2 > π - 0.5` — although the two orientations differ
    by `π/2 ≥ 0.5` modulo `π`, so the claimed criterion rejects it. -/
theorem coherence_claim_false :
    (50 : ℝ) < edgesC cEdgeImg 1 1
    ∧ neighborAgrees cEdgeImg 1 1 2 1
    ∧ ¬ specOrientationAgrees (edgeAngleC cEdgeImg 2 1)
        (edgeAngleC cEdgeImg 1 1) := by
  have hpi := Real.pi_gt_three
  refine ⟨?_, ⟨?_, Or.inr ?_⟩, ?_⟩
  · rw [cEdge_mag_p]
    exact sqrt_20000_gt_50
  · rw [cEdge_mag_q]
    exact sqrt_20000_gt_50
  · rw [cEdge_angle_diff]
    linarith
  · unfold specOrientationAgrees
    rw [cEdge_angle_diff]
    have hdiv : Real.pi * (3/2) / Real.pi = 3/2 := by
      field_simp
      ring
    unfold rmod
    rw [hdiv]
    rw [show ⌊(3/2 : ℝ)⌋ = 1 by norm_num [Int.floor_eq_iff]]
    push_neg
    constructor <;> push_cast <;> linarith

/-- C5 amended: a neighbour is counted as agreeing exactly when it is above
    the edge threshold and the absolute difference of the two raw
    orientations is below 0.5 or above `π - 0.5` (not the difference modulo
    `π`); a pixel with more than 6 agreeing neighbours is coherent; and
    +0.3 is added exactly when the coherent fraction over all edge pixels
    exceeds 0.6. -/
theorem coherence_amended (img : Img) (x y : ℕ) :
    similarNeighbors img x y =
      ((Finset.range 3 ×ˢ Finset.range 3).filter fun o =>
        o ≠ (1, 1) ∧ neighborAgrees img x y (x + o.2 - 1) (y + o.1 - 1)).card
  ∧ coherentEdges img =
      ((interiorGrid img).filter fun p =>
        50 < edgesC img p.1 p.2 ∧ 6 < similarNeighbors img p.1 p.2).card
  ∧ (edgeCoherenceTerm img = 3/10 ↔ (3/5 : ℚ) < coherenceRatio img) := by
  refine ⟨?_, ?_, ?_⟩
  · rw [Finset.card_filter, Finset.sum_product]
    unfold similarNeighbors
    refine Finset.sum_congr rfl fun dy _ => Finset.sum_congr rfl fun dx _ => ?_
    by_cases h1 : ((dy : ℕ), (dx : ℕ)) = (1, 1)
    · simp [h1]
    · have h1' : ¬ (dy = 1 ∧ dx = 1) := by
        intro hcon
        exact h1 (by rw [hcon.1, hcon.2])
      by_cases h2 : neighborAgrees img x y (x + dx - 1) (y + dy - 1) <;>
        simp [h1, h1', h2]
  · rw [Finset.card_filter]
    rfl
  · unfold edgeCoherenceTerm
    split_ifs with h <;> simp [h] <;> norm_num

/-! ## C7: a uniform 64×64 image scores high on noise, edges, texture -/

theorem uniform_data_r4 (w h : ℕ) (r g b a : ℚ) (k : ℕ) :
    (uniformImg w h r g b a).data (k * 4) = r := by
  rw [mul_comm]
  exact uniform_data_r w h r g b a k

theorem uniform_noiseSampleAt (w h : ℕ) (r g b a : ℚ) (pos : ℕ × ℕ)
    (ry rx : ℕ) : noiseSampleAt (uniformImg w h r g b a) pos ry rx = 0 := by
  unfold noiseSampleAt
  rw [uniform_data_r4, uniform_data_r4, uniform_data_r4]
  simp

theorem uniform_noiseSamples (w h : ℕ) (r g b a : ℚ) :
    ∀ x ∈ noiseSamples (uniformImg w h r g b a), x = 0 := by
  intro x hx
  unfold noiseSamples at hx
  simp only [List.mem_flatMap, List.mem_map] at hx
  obtain ⟨pos, _, ry, _, rx, _, hx⟩ := hx
  rw [← hx, uniform_noiseSampleAt]

theorem uniform_avgNoise (w h : ℕ) (r g b a : ℚ) :
    avgNoise (uniformImg w h r g b a) = 0 := by
  unfold avgNoise
  rw [List.sum_eq_zero (uniform_noiseSamples w h r g b a)]
  split_ifs <;> norm_num

theorem uniform_noiseCV (w h : ℕ) (r g b a : ℚ) :
    noiseCV (uniformImg w h r g b a) = 0 := by
  unfold noiseCV
  rw [uniform_avgNoise]
  norm_num

theorem noisePeriodicTerm_nonneg (img : Img) : 0 ≤ noisePeriodicTerm img := by
  unfold noisePeriodicTerm
  split_ifs <;> norm_num

theorem noiseFlatTerm_nonneg (img : Img) : 0 ≤ noiseFlatTerm img := by
  unfold noiseFlatTerm
  split_ifs <;> norm_num

theorem uniform_noise_score (r g b a : ℚ) :
    1/2 ≤ analyzeNoiseScore (uniformImg 64 64 r g b a) := by
  have hclean : noiseCleanTerm (uniformImg 64 64 r g b a) = 1/2 := by
    unfold noiseCleanTerm
    rw [uniform_avgNoise]
    norm_num
  have hconsist : noiseConsistTerm (uniformImg 64 64 r g b a) = 3/10 := by
    unfold noiseConsistTerm
    rw [uniform_noiseCV]
    norm_num
  unfold analyzeNoiseScore
  refine le_clamp01 (by norm_num) ?_
  rw [hclean, hconsist]
  have h1 : (0:ℝ) ≤ ((noisePeriodicTerm (uniformImg 64 64 r g b a) : ℚ) : ℝ) := by
    exact_mod_cast noisePeriodicTerm_nonneg (uniformImg 64 64 r g b a)
  have h2 : (0:ℝ) ≤ ((noiseFlatTerm (uniformImg 64 64 r g b a) : ℚ) : ℝ) := by
    exact_mod_cast noiseFlatTerm_nonneg (uniformImg 64 64 r g b a)
  push_cast at h1 h2 ⊢
  linarith

theorem edgeStrongTerm_nonneg (img : Img) : 0 ≤ edgeStrongTerm img := by
  unfold edgeStrongTerm
  split_ifs <;> norm_num

theorem edgeCoherenceTerm_nonneg (img : Img) : 0 ≤ edgeCoherenceTerm img := by
  unfold edgeCoherenceTerm
  split_ifs <;> norm_num

theorem uniform_avgEdgeStrength (w h : ℕ) (r g b a : ℚ) :
    avgEdgeStrength (uniformImg w h r g b a) = 0 := by
  unfold avgEdgeStrength totalEdgeStrength
  rw [Finset.sum_eq_zero fun p _ => uniform_edgesC w h r g b a p.1 p.2]
  exact zero_div _

theorem uniform_edgeVarTerm (w h : ℕ) (r g b a : ℚ) :
    edgeVarTerm (uniformImg w h r g b a) = 3/10 := by
  have hvar : edgeVariance (uniformImg w h r g b a) = 0 := by
    unfold edgeVariance
    rw [Finset.sum_eq_zero fun p _ => ?_]
    · exact zero_div _
    · rw [uniform_edgesC, uniform_avgEdgeStrength]
      norm_num
  unfold edgeVarTerm
  rw [hvar]
  norm_num

theorem uniform64_regionEdgeCount (r g b a : ℚ) (x0 y0 : ℕ) :
    regionEdgeCount (uniformImg 64 64 r g b a) x0 y0 = 0 := by
  unfold regionEdgeCount
  refine Finset.sum_eq_zero fun ry _ => Finset.sum_eq_zero fun rx _ => ?_
  rw [if_neg]
  rw [uniform_edgesC]
  norm_num

theorem uniform64_edgeSmoothTerm (r g b a : ℚ) :
    edgeSmoothTerm (uniformImg 64 64 r g b a) = 3/10 := by
  have hsr : smoothRegions (uniformImg 64 64 r g b a) = 9 := by
    unfold smoothRegions
    have hs : steps ((uniformImg 64 64 r g b a).height - 20) 20 = 3 := by
      show steps (64 - 20) 20 = 3
      decide
    have hw : steps ((uniformImg 64 64 r g b a).width - 20) 20 = 3 := by
      show steps (64 - 20) 20 = 3
      decide
    rw [hs, hw]
    simp [Finset.sum_range_succ, uniform64_regionEdgeCount]
  have htr : totalRegions (uniformImg 64 64 r g b a) = 9 := by
    show (64 / 20) * (64 / 20) = 9
    decide
  unfold edgeSmoothTerm smoothRatio
  rw [hsr, htr]
  norm_num [nanDiv, oGT]

theorem uniform_edge_score (r g b a : ℚ) :
    1/2 ≤ analyzeEdgesScore (uniformImg 64 64 r g b a) := by
  unfold analyzeEdgesScore
  refine le_clamp01 (by norm_num) ?_
  rw [uniform_edgeVarTerm, uniform64_edgeSmoothTerm]
  have h1 := edgeStrongTerm_nonneg (uniformImg 64 64 r g b a)
  have h2 := edgeCoherenceTerm_nonneg (uniformImg 64 64 r g b a)
  linarith

theorem uniform_lbpNeighbor (w h : ℕ) (r g b a : ℚ) (x y i : ℕ) :
    lbpNeighbor (uniformImg w h r g b a) x y i
      = 299/1000 * r + 587/1000 * g + 114/1000 * b := by
  match i with
  | 0 => exact uniform_gray w h r g b a _
  | 1 => exact uniform_gray w h r g b a _
  | 2 => exact uniform_gray w h r g b a _
  | 3 => exact uniform_gray w h r g b a _
  | 4 => exact uniform_gray w h r g b a _
  | 5 => exact uniform_gray w h r g b a _
  | 6 => exact uniform_gray w h r g b a _
  | n + 7 => exact uniform_gray w h r g b a _

theorem uniform_lbpPattern (w h : ℕ) (r g b a : ℚ) (x y : ℕ) :
    lbpPattern (uniformImg w h r g b a) x y = 255 := by
  unfold lbpPattern
  rw [Finset.sum_congr rfl fun i _ =>
    if_pos (by rw [uniform_gray, uniform_lbpNeighbor])]
  decide

theorem uniform64_hist (r g b a : ℚ) (k : ℕ) :
    lbpHistogram (uniformImg 64 64 r g b a) k = if 255 = k then 3844 else 0 := by
  unfold lbpHistogram
  rw [Finset.sum_congr rfl fun p _ => by rw [uniform_lbpPattern]]
  have hcard : (interiorGrid (uniformImg 64 64 r g b a)).card = 3844 := by
    unfold interiorGrid
    rw [Finset.card_product]
    simp only [Nat.card_Ico]
    show (64 - 1 - 1) * (64 - 1 - 1) = 3844
    decide
  by_cases hk : 255 = k
  · simp only [if_pos hk]
    rw [Finset.sum_const, smul_eq_mul, mul_one, hcard]
  · simp only [if_neg hk]
    exact Finset.sum_const_zero

theorem uniform64_totalLBP (r g b a : ℚ) :
    totalLBP (uniformImg 64 64 r g b a) = 3844 := by
  unfold totalLBP
  rw [Finset.sum_congr rfl fun k _ => uniform64_hist r g b a k]
  rw [Finset.sum_ite_eq]
  simp

theorem uniform64_varietyTerm (r g b a : ℚ) :
    textureVarietyTerm (uniformImg 64 64 r g b a) = 2/5 := by
  have hfil : ((Finset.range 256).filter fun k =>
      0 < lbpHistogram (uniformImg 64 64 r g b a) k) = {255} := by
    ext k
    rw [Finset.mem_filter, uniform64_hist r g b a k, Finset.mem_singleton]
    by_cases hk : 255 = k
    · subst hk
      simp
    · rw [if_neg hk]
      simp only [lt_irrefl, and_false, false_iff]
      exact fun h => hk h.symm
  unfold textureVarietyTerm nonZeroPatterns
  rw [hfil]
  norm_num

theorem uniform64_dominanceTerm (r g b a : ℚ) :
    textureDominanceTerm (uniformImg 64 64 r g b a) = 3/10 := by
  have hmax : maxPatternCount (uniformImg 64 64 r g b a) = 3844 := by
    unfold maxPatternCount
    apply le_antisymm
    · exact Finset.sup_le fun k _ => by
        rw [uniform64_hist]
        split_ifs <;> norm_num
    · have h255 : (255 : ℕ) ∈ Finset.range 256 := by norm_num
      have hle := Finset.le_sup
        (f := lbpHistogram (uniformImg 64 64 r g b a)) h255
      rwa [uniform64_hist, if_pos rfl] at hle
  unfold textureDominanceTerm dominanceRatio
  rw [hmax, uniform64_totalLBP]
  norm_num [nanDiv, oGT]

theorem textureRepetitionTerm_nonneg (img : Img) :
    0 ≤ textureRepetitionTerm img := by
  unfold textureRepetitionTerm
  split_ifs <;> norm_num

theorem textureSmoothTerm_nonneg (img : Img) : 0 ≤ textureSmoothTerm img := by
  unfold textureSmoothTerm
  split_ifs <;> norm_num

theorem textureEntropyTerm_nonneg (img : Img) : 0 ≤ textureEntropyTerm img := by
  unfold textureEntropyTerm
  split_ifs <;> norm_num

theorem uniform_texture_score (r g b a : ℚ) :
    1/2 ≤ analyzeTextureScore (uniformImg 64 64 r g b a) := by
  unfold analyzeTextureScore
  refine le_clamp01 (by norm_num) ?_
  rw [uniform64_varietyTerm, uniform64_dominanceTerm]
  have h1 : (0:ℝ) ≤ ((textureRepetitionTerm (uniformImg 64 64 r g b a) : ℚ) : ℝ) := by
    exact_mod_cast textureRepetitionTerm_nonneg (uniformImg 64 64 r g b a)
  have h2 : (0:ℝ) ≤ ((textureSmoothTerm (uniformImg 64 64 r g b a) : ℚ) : ℝ) := by
    exact_mod_cast textureSmoothTerm_nonneg (uniformImg 64 64 r g b a)
  have h3 := textureEntropyTerm_nonneg (uniformImg 64 64 r g b a)
  push_cast at h1 h2 ⊢
  linarith

/-- C7: every uniform solid-colour 64×64 RGBA image scores at least 0.5 on
    the noise module (too-clean and uniform-noise terms fire), the edge
    module (uniform-variance and smooth-region terms fire) and the texture
    module (variety and dominance terms fire). -/
theorem uniform_image_high_scores (r g b a : ℚ) :
    1/2 ≤ analyzeNoiseScore (uniformImg 64 64 r g b a)
  ∧ 1/2 ≤ analyzeEdgesScore (uniformImg 64 64 r g b a)
  ∧ 1/2 ≤ analyzeTextureScore (uniformImg 64 64 r g b a) :=
  ⟨uniform_noise_score r g b a, uniform_edge_score r g b a,
    uniform_texture_score r g b a⟩

end ImgSpec
